import Mathlib

/-!
Verification of the conversational retrieval-and-orchestration engine of the
AIwebsite backend.  Each component that the checked properties concern is given
a shallow embedding: Python dicts become association lists, machine floats that
are only ever compared become `Int` scores, fallible code returns `Option` or
`Except`, and the external collaborators (embedding provider, LLM, difflib,
sha256) become function parameters, mirroring the adapter contracts of the
backend.  The embeddings follow the sources in `backend/app/` statement by
statement; file and line references are given on every definition.
-/

namespace AIweb

/-! ## Generic helpers: Python dict / string semantics -/

/-- Lookup in an insertion-ordered association list, as for a Python dict
(keys are unique in an actual dict, so first match is the match). -/
def alistGet {α : Type} (m : List (String × α)) (k : String) : Option α :=
  (m.find? (fun kv => kv.1 == k)).map Prod.snd

/-- Update in an association list: `d[k] = v` keeps the position of an
existing key and appends a fresh key at the end, as a Python dict does. -/
def alistSet {α : Type} : List (String × α) → String → α → List (String × α)
  | [], k, v => [(k, v)]
  | (k1, v1) :: rest, k, v =>
    if k1 == k then (k, v) :: rest else (k1, v1) :: alistSet rest k v

/-- Deletion from an association list (`del d[k]`). -/
def alistDel {α : Type} : List (String × α) → String → List (String × α)
  | [], _ => []
  | (k1, v1) :: rest, k =>
    if k1 == k then rest else (k1, v1) :: alistDel rest k

/-- Tests whether the character list `needle` occurs at the start of `hay`. -/
def startsWithList : List Char → List Char → Bool
  | _, [] => true
  | [], _ :: _ => false
  | a :: hay, b :: needle => a == b && startsWithList hay needle

/-- Tests whether `needle` occurs contiguously inside `hay`; this is the
semantics of the Python expression `needle in hay` on strings (in
particular the empty needle always matches). -/
def hasSubList : List Char → List Char → Bool
  | [], needle => needle.isEmpty
  | a :: hay, needle => startsWithList (a :: hay) needle || hasSubList hay needle

/-- Python `needle in hay` for strings. -/
def strIn (needle hay : String) : Bool :=
  hasSubList hay.data needle.data

/-- Python `s.lower()` (the sources only ever apply it to ASCII keyword
material, where `Char.toLower` agrees with Python). -/
def pyLower (s : String) : String :=
  ⟨s.data.map Char.toLower⟩

/-- Python `s.strip()`: drop whitespace from both ends. -/
def pyStripStr (s : String) : String :=
  ⟨((s.data.dropWhile Char.isWhitespace).reverse.dropWhile Char.isWhitespace).reverse⟩

/-- Python `s.startswith(pre)`. -/
def pyStartsWith (s pre : String) : Bool :=
  startsWithList s.data pre.data

/-- Python truthiness of an optional string: `None` and `""` are falsy. -/
def pyTruthy (o : Option String) : Bool :=
  match o with
  | some s => s ≠ ""
  | none => false

/-- Python `a or b` for an optional string `a` with a string default `b`. -/
def falsyOr (a : Option String) (b : String) : String :=
  match a with
  | some s => if s = "" then b else s
  | none => b

/-! ## Conversation state: `backend/app/conversation_state.py`

The confirmation-slot logic of `update_state_from_messages`
(lines 160-194).  The earlier heuristic extraction steps of that function
write only the fixed keys `email`, `name`, `product_id` and `product_slug`
and therefore never touch the confirmation slot of the default
configuration; the slot update itself reads nothing but the configuration
and the latest user message, so it is embedded as a function of those and
of the slot's previous value. -/

/-- One chat message, as the dicts `{"role": ..., "text": ...}` used
throughout the backend. -/
structure Msg where
  role : String
  text : String
deriving Repr, DecidableEq

/-- The slice of `config["state_management"]` read by
`update_state_from_messages` (conversation_state.py lines 160-164 and
186-192), together with the defaults the code supplies to `.get`. -/
structure StateCfg where
  confirmation_slot : String
  confirmation_keywords : List String
  completion_keywords : List String
  reset_confirmation_on_change : Bool
  reset_confirmation_on_completion : Bool
deriving Repr, DecidableEq

/-- The configuration obtained when `config` is absent or has no
`state_management` entry: every `.get` returns its default
(conversation_state.py lines 162-164, 188, 192). -/
def default_state_cfg : StateCfg where
  confirmation_slot := "confirm_send"
  confirmation_keywords := ["confirm", "send it", "yes", "ok", "sure", "please do"]
  completion_keywords := ["thank you", "thanks", "done", "finished", "bye"]
  reset_confirmation_on_change := true
  reset_confirmation_on_completion := true

/-- the nested helper `has_keyword` (conversation_state.py lines 167-173):
empty text never matches, otherwise any keyword occurring as a substring of
the lowercased text matches. -/
def has_keyword (text : String) (keywords : List String) : Bool :=
  if text = "" then false
  else keywords.any (fun k => strIn k (pyLower text))

/-- the latest user message: the code walks `reversed(messages)` and takes
the first entry with role `user`, defaulting to `""`
(conversation_state.py lines 177-181). -/
def last_user_msg (messages : List Msg) : String :=
  match messages.reverse.find? (fun m => m.role == "user") with
  | some m => m.text
  | none => ""

/-- the value held by `state.slots[confirmation_slot]` after the
confirmation block of `update_state_from_messages`
(conversation_state.py lines 183-194), given the value `prev` the slot held
before the call (`none` when the slot was absent).  A keyword hit stores
`true`; otherwise the flag is reset to `false` when
`reset_confirmation_on_change` holds, else left untouched; finally a
completion keyword in the latest user message forces `false` when
`reset_confirmation_on_completion` holds. -/
def confirm_slot_update (cfg : StateCfg) (messages : List Msg) (prev : Option Bool) :
    Option Bool :=
  let last := last_user_msg messages
  let v1 : Option Bool :=
    if has_keyword last cfg.confirmation_keywords then some true
    else if cfg.reset_confirmation_on_change then some false
    else prev
  if cfg.reset_confirmation_on_completion && has_keyword last cfg.completion_keywords then
    some false
  else v1

/-- Claim C2: with the reset flags at their built-in default (`true`), the
confirmation slot written by `update_state_from_messages` is a function of
the latest user message alone — two message lists with the same latest user
message produce the same slot value whatever earlier turns or previous slot
values they carry — and the slot is `false` whenever the latest user message
matches no confirmation keyword or matches a completion keyword. -/
theorem claim_C2 (slot : String) (ck comp : List String) (m1 m2 : List Msg)
    (p1 p2 : Option Bool)
    (hsame : last_user_msg m1 = last_user_msg m2) :
    confirm_slot_update ⟨slot, ck, comp, true, true⟩ m1 p1
      = confirm_slot_update ⟨slot, ck, comp, true, true⟩ m2 p2
    ∧ ((has_keyword (last_user_msg m1) ck = false
          ∨ has_keyword (last_user_msg m1) comp = true)
        → confirm_slot_update ⟨slot, ck, comp, true, true⟩ m1 p1 = some false) := by
  constructor
  · simp [confirm_slot_update, hsame]
  · intro h
    simp only [confirm_slot_update]
    rcases h with h | h
    · simp [h]
    · simp [h]

/-- Claim C2, witness: the latest user message `what else` neither confirms
nor completes, so the slot is reset to `false` for two different histories
and previous values. -/
theorem claim_C2_witness :
    confirm_slot_update default_state_cfg
        [⟨"user", "hello"⟩, ⟨"assistant", "hi"⟩, ⟨"user", "what else"⟩] (some true)
      = confirm_slot_update default_state_cfg [⟨"user", "what else"⟩] none
    ∧ confirm_slot_update default_state_cfg
        [⟨"user", "hello"⟩, ⟨"assistant", "hi"⟩, ⟨"user", "what else"⟩] (some true)
      = some false := by
  have h := claim_C2 "confirm_send"
    ["confirm", "send it", "yes", "ok", "sure", "please do"]
    ["thank you", "thanks", "done", "finished", "bye"]
    [⟨"user", "hello"⟩, ⟨"assistant", "hi"⟩, ⟨"user", "what else"⟩]
    [⟨"user", "what else"⟩] (some true) none (by decide)
  exact ⟨h.1, h.2 (by decide)⟩

/-- Claim C3: evaluation of the confirmation logic of
`update_state_from_messages` under its built-in default configuration.  The
default keyword list (conversation_state.py line 163) contains the bare
keyword `yes`, so the latest user message `yes` alone already sets the
confirmation slot to `true`, exactly as `yes, send it` does.  This
contradicts the specified behaviour (Scenario B) and the repository's own
acceptance test of the confirmation logic
(`backend/tests/test_chat_acceptance.py`, `test_backend_confirmation_logic`),
which require a bare `yes` not to confirm. -/
theorem claim_C3_code_eval :
    confirm_slot_update default_state_cfg [⟨"user", "yes"⟩] none = some true
    ∧ confirm_slot_update default_state_cfg [⟨"user", "yes, send it"⟩] none
        = some true := by
  constructor <;> decide

/-! ## JSON-like values

Python values travelling through slots, tool arguments and tool results. -/

/-- Untyped JSON-like value.  Numbers that the checked code only ever
stores, compares or copies are collapsed to `Int`. -/
inductive JValue where
  | null
  | bool (b : Bool)
  | num (n : Int)
  | str (s : String)
  | arr (xs : List JValue)
  | obj (kvs : List (String × JValue))
deriving Repr

/-- Argument maps and slot maps: insertion-ordered string-keyed dicts. -/
abbrev ArgMap : Type := List (String × JValue)

/-! ## Conversation store: `backend/app/conversation_state.py` lines 14-91 -/

/-- `ConversationState` (conversation_state.py lines 14-28); `updated_at`
is a timestamp, embedded as a natural number of seconds. -/
structure ConversationState where
  conversation_id : String
  locale : String
  summary : String
  slots : ArgMap
  recent_turns : List Msg
  updated_at : Nat
deriving Repr

/-- `LRUConversationStore` (conversation_state.py lines 38-48): the dict of
states plus the access-order list with the most recently used id at the
end. -/
structure LRUConversationStore where
  max_items : Nat
  ttl_seconds : Nat
  store : List (String × ConversationState)
  access_order : List String
deriving Repr

/-- `LRUConversationStore.upsert` (conversation_state.py lines 76-91).
`now` stands for `time.time()`.  The eviction branch pops the head of the
access order; popping from an empty list raises in Python, which the
embedding renders as `none`. -/
def upsert (s : LRUConversationStore) (state : ConversationState) (now : Nat) :
    Option LRUConversationStore :=
  let cid := state.conversation_id
  let state := { state with updated_at := now }
  if (alistGet s.store cid).isSome then
    some { s with
      store := alistSet s.store cid state
      access_order :=
        (if cid ∈ s.access_order then s.access_order.erase cid else s.access_order)
          ++ [cid] }
  else
    if s.max_items ≤ s.store.length then
      match s.access_order with
      | [] => none
      | lru_id :: rest =>
        let store1 :=
          if (alistGet s.store lru_id).isSome then alistDel s.store lru_id else s.store
        some { s with
          store := alistSet store1 cid state
          access_order := rest ++ [cid] }
    else
      some { s with
        store := alistSet s.store cid state
        access_order := s.access_order ++ [cid] }

/-- `LRUConversationStore.get_or_create` (conversation_state.py lines
50-74), returning the state handed back to the caller together with the
updated store.  A TTL-expired entry is dropped and recreated; an existing
entry is moved to the most-recently-used position and its locale refreshed
in place (the returned state is the stored object). -/
def get_or_create (s : LRUConversationStore) (conversation_id locale : String)
    (now : Nat) : Option (ConversationState × LRUConversationStore) :=
  match alistGet s.store conversation_id with
  | some st =>
    if s.ttl_seconds < now - st.updated_at then
      let s1 := { s with
        store := alistDel s.store conversation_id
        access_order :=
          if conversation_id ∈ s.access_order then s.access_order.erase conversation_id
          else s.access_order }
      let new_st : ConversationState :=
        ⟨conversation_id, locale, "", [], [], now⟩
      (upsert s1 new_st now).map (fun s2 => (new_st, s2))
    else
      let st1 :=
        if locale ≠ "" ∧ locale ≠ st.locale then { st with locale := locale } else st
      some (st1, { s with
        store := alistSet s.store conversation_id st1
        access_order :=
          (if conversation_id ∈ s.access_order then s.access_order.erase conversation_id
           else s.access_order) ++ [conversation_id] })
  | none =>
    let new_st : ConversationState := ⟨conversation_id, locale, "", [], [], now⟩
    (upsert s new_st now).map (fun s2 => (new_st, s2))

/-! ### Association-list lemmas (Python dict semantics) -/

lemma alistGet_cons {α : Type} (k1 : String) (v1 : α) (rest : List (String × α))
    (k : String) :
    alistGet ((k1, v1) :: rest) k = if k1 = k then some v1 else alistGet rest k := by
  by_cases h : k1 = k
  · have hb : (k1 == k) = true := beq_iff_eq.mpr h
    simp [alistGet, List.find?, hb, h]
  · have hb : (k1 == k) = false := beq_eq_false_iff_ne.mpr h
    simp [alistGet, List.find?, hb, h]

lemma alistSet_cons {α : Type} (k1 : String) (v1 : α) (rest : List (String × α))
    (k : String) (v : α) :
    alistSet ((k1, v1) :: rest) k v
      = if k1 = k then (k, v) :: rest else (k1, v1) :: alistSet rest k v := by
  by_cases h : k1 = k
  · simp [alistSet, beq_iff_eq.mpr h, h]
  · simp [alistSet, beq_eq_false_iff_ne.mpr h, h]

lemma alistDel_cons {α : Type} (k1 : String) (v1 : α) (rest : List (String × α))
    (k : String) :
    alistDel ((k1, v1) :: rest) k
      = if k1 = k then rest else (k1, v1) :: alistDel rest k := by
  by_cases h : k1 = k
  · simp [alistDel, beq_iff_eq.mpr h, h]
  · simp [alistDel, beq_eq_false_iff_ne.mpr h, h]

lemma alistGet_eq_none_of_not_mem {α : Type} (m : List (String × α)) (k : String)
    (h : k ∉ m.map Prod.fst) : alistGet m k = none := by
  induction m with
  | nil => rfl
  | cons kv rest ih =>
    obtain ⟨k1, v1⟩ := kv
    simp only [List.map_cons, List.mem_cons, not_or] at h
    rw [alistGet_cons, if_neg (fun he => h.1 he.symm)]
    exact ih h.2

lemma alistGet_set_self {α : Type} (m : List (String × α)) (k : String) (v : α) :
    alistGet (alistSet m k v) k = some v := by
  induction m with
  | nil => simp [alistSet, alistGet_cons]
  | cons kv rest ih =>
    obtain ⟨k1, v1⟩ := kv
    rw [alistSet_cons]
    by_cases h : k1 = k
    · rw [if_pos h, alistGet_cons, if_pos rfl]
    · rw [if_neg h, alistGet_cons, if_neg h]
      exact ih

lemma alistGet_set_ne {α : Type} (m : List (String × α)) (k k2 : String) (v : α)
    (h : k2 ≠ k) : alistGet (alistSet m k v) k2 = alistGet m k2 := by
  have hkk2 : ¬ k = k2 := fun he => h he.symm
  induction m with
  | nil =>
    show alistGet [(k, v)] k2 = alistGet [] k2
    rw [alistGet_cons, if_neg hkk2]
  | cons kv rest ih =>
    obtain ⟨k1, v1⟩ := kv
    rw [alistSet_cons]
    by_cases h1 : k1 = k
    · have hk1 : ¬ k1 = k2 := fun he => h (he ▸ h1)
      rw [if_pos h1, alistGet_cons, if_neg hkk2, alistGet_cons, if_neg hk1]
    · rw [if_neg h1, alistGet_cons, alistGet_cons]
      by_cases h2 : k1 = k2
      · rw [if_pos h2, if_pos h2]
      · rw [if_neg h2, if_neg h2]
        exact ih

lemma alistGet_del_ne {α : Type} (m : List (String × α)) (k k2 : String)
    (h : k2 ≠ k) : alistGet (alistDel m k) k2 = alistGet m k2 := by
  induction m with
  | nil => rfl
  | cons kv rest ih =>
    obtain ⟨k1, v1⟩ := kv
    rw [alistDel_cons]
    by_cases h1 : k1 = k
    · have hk1 : ¬ k1 = k2 := fun he => h (he ▸ h1)
      rw [if_pos h1, alistGet_cons, if_neg hk1]
    · rw [if_neg h1, alistGet_cons, alistGet_cons]
      by_cases h2 : k1 = k2
      · rw [if_pos h2, if_pos h2]
      · rw [if_neg h2, if_neg h2]
        exact ih

lemma alistGet_del_self {α : Type} (m : List (String × α)) (k : String)
    (hnd : (m.map Prod.fst).Nodup) : alistGet (alistDel m k) k = none := by
  induction m with
  | nil => rfl
  | cons kv rest ih =>
    obtain ⟨k1, v1⟩ := kv
    simp only [List.map_cons, List.nodup_cons] at hnd
    rw [alistDel_cons]
    by_cases h1 : k1 = k
    · rw [if_pos h1]
      exact alistGet_eq_none_of_not_mem rest k (h1 ▸ hnd.1)
    · rw [if_neg h1, alistGet_cons, if_neg h1]
      exact ih hnd.2

/-- Claim C9: over a full `LRUConversationStore`, `upsert` of a state with
a fresh conversation id evicts exactly the head of the access order — the
least-recently-used id — leaving every other entry untouched, and
`get_or_create` on a stored, non-expired id returns the stored state
(summary, slots and turns intact) and moves its id to the most-recently-used
end of the access order. -/
theorem claim_C9 (s : LRUConversationStore) (now : Nat) :
    (∀ st lru_id rest,
      (s.store.map Prod.fst).Nodup →
      s.store.length = s.max_items →
      alistGet s.store st.conversation_id = none →
      s.access_order = lru_id :: rest →
      (alistGet s.store lru_id).isSome = true →
      ∃ s2, upsert s st now = some s2
        ∧ alistGet s2.store lru_id = none
        ∧ alistGet s2.store st.conversation_id = some { st with updated_at := now }
        ∧ (∀ k, k ≠ lru_id → k ≠ st.conversation_id →
            alistGet s2.store k = alistGet s.store k)
        ∧ s2.access_order = rest ++ [st.conversation_id])
    ∧ (∀ cid locale st,
      alistGet s.store cid = some st →
      now - st.updated_at ≤ s.ttl_seconds →
      ∃ st1 s2, get_or_create s cid locale now = some (st1, s2)
        ∧ st1.conversation_id = st.conversation_id
        ∧ st1.summary = st.summary
        ∧ st1.slots = st.slots
        ∧ st1.recent_turns = st.recent_turns
        ∧ st1.updated_at = st.updated_at
        ∧ s2.store = alistSet s.store cid st1
        ∧ s2.access_order = s.access_order.erase cid ++ [cid]) := by
  constructor
  · intro st lru_id rest hnd hfull hnew horder hlru
    have hne : lru_id ≠ st.conversation_id := by
      intro h
      rw [h, hnew] at hlru
      simp at hlru
    have hup : upsert s st now
        = some { s with
            store := alistSet (alistDel s.store lru_id) st.conversation_id
              { st with updated_at := now }
            access_order := rest ++ [st.conversation_id] } := by
      simp only [upsert, hnew, Option.isSome_none, Bool.false_eq_true, if_false,
        hfull, le_refl, if_true, horder, hlru]
    refine ⟨_, hup, ?_, ?_, ?_, rfl⟩
    · show alistGet (alistSet (alistDel s.store lru_id) st.conversation_id
        { st with updated_at := now }) lru_id = none
      rw [alistGet_set_ne _ _ _ _ hne]
      exact alistGet_del_self s.store lru_id hnd
    · exact alistGet_set_self _ _ _
    · intro k hk1 hk2
      show alistGet (alistSet (alistDel s.store lru_id) st.conversation_id
        { st with updated_at := now }) k = alistGet s.store k
      rw [alistGet_set_ne _ _ _ _ hk2]
      exact alistGet_del_ne _ _ _ hk1
  · intro cid locale st hex hfresh
    have hcond : ¬ s.ttl_seconds < now - st.updated_at := Nat.not_lt.mpr hfresh
    have horder : (if cid ∈ s.access_order then s.access_order.erase cid
        else s.access_order) = s.access_order.erase cid := by
      by_cases h : cid ∈ s.access_order
      · simp [h]
      · simp [h, List.erase_of_not_mem h]
    by_cases hloc : locale ≠ "" ∧ locale ≠ st.locale
    · refine ⟨{ st with locale := locale },
        { s with
          store := alistSet s.store cid { st with locale := locale }
          access_order := (if cid ∈ s.access_order then s.access_order.erase cid
            else s.access_order) ++ [cid] },
        ?_, rfl, rfl, rfl, rfl, rfl, rfl, ?_⟩
      · simp only [get_or_create, hex, if_neg hcond, if_pos hloc]
      · show (if cid ∈ s.access_order then s.access_order.erase cid
          else s.access_order) ++ [cid] = s.access_order.erase cid ++ [cid]
        rw [horder]
    · refine ⟨st,
        { s with
          store := alistSet s.store cid st
          access_order := (if cid ∈ s.access_order then s.access_order.erase cid
            else s.access_order) ++ [cid] },
        ?_, rfl, rfl, rfl, rfl, rfl, rfl, ?_⟩
      · simp only [get_or_create, hex, if_neg hcond, if_neg hloc]
      · show (if cid ∈ s.access_order then s.access_order.erase cid
          else s.access_order) ++ [cid] = s.access_order.erase cid ++ [cid]
        rw [horder]

/-- Claim C9, witness: a store of capacity two holding ids `a` (least
recently used) and `b`; upserting id `c` evicts exactly `a`, and
`get_or_create` on `b` returns the stored state and promotes `b`. -/
theorem claim_C9_witness :
    (∃ s2,
      upsert ⟨2, 100, [("a", ⟨"a", "en", "sa", [], [], 10⟩),
          ("b", ⟨"b", "en", "sb", [], [], 20⟩)], ["a", "b"]⟩
          ⟨"c", "en", "", [], [], 0⟩ 50 = some s2
        ∧ alistGet s2.store "a" = none
        ∧ alistGet s2.store "c" = some ⟨"c", "en", "", [], [], 50⟩
        ∧ (∀ k, k ≠ "a" → k ≠ "c" →
            alistGet s2.store k
              = alistGet [("a", ⟨"a", "en", "sa", [], [], 10⟩),
                  ("b", ⟨"b", "en", "sb", [], [], 20⟩)] k)
        ∧ s2.access_order = ["b"] ++ ["c"])
    ∧ (∃ st1 s2,
      get_or_create ⟨2, 100, [("a", ⟨"a", "en", "sa", [], [], 10⟩),
          ("b", ⟨"b", "en", "sb", [], [], 20⟩)], ["a", "b"]⟩ "b" "en" 50
        = some (st1, s2)
        ∧ st1.conversation_id = "b"
        ∧ st1.summary = "sb"
        ∧ st1.slots = ([] : ArgMap)
        ∧ st1.recent_turns = []
        ∧ st1.updated_at = 20
        ∧ s2.store = alistSet [("a", ⟨"a", "en", "sa", [], [], 10⟩),
            ("b", ⟨"b", "en", "sb", [], [], 20⟩)] "b" st1
        ∧ s2.access_order = (["a", "b"] : List String).erase "b" ++ ["b"]) := by
  constructor
  · exact (claim_C9 ⟨2, 100, [("a", ⟨"a", "en", "sa", [], [], 10⟩),
      ("b", ⟨"b", "en", "sb", [], [], 20⟩)], ["a", "b"]⟩ 50).1
      ⟨"c", "en", "", [], [], 0⟩ "a" ["b"] (by decide) rfl rfl rfl rfl
  · exact (claim_C9 ⟨2, 100, [("a", ⟨"a", "en", "sa", [], [], 10⟩),
      ("b", ⟨"b", "en", "sb", [], [], 20⟩)], ["a", "b"]⟩ 50).2
      "b" "en" ⟨"b", "en", "sb", [], [], 20⟩ rfl (by decide)

/-! ## Tool registry: `backend/app/tools/registry.py` -/

/-- One property of a tool parameter schema
(`create_tool_validator`, tools/schemas.py lines 13-44): its JSON type name
and the optional `default` entry. -/
structure FieldDef where
  type : String
  default_val : Option JValue
deriving Repr

/-- The JSON-schema-like `parameters` dict of a tool
(tools/schemas.py lines 9-48): `properties`, `required` and
`additionalProperties`. -/
structure ParamsSchema where
  properties : List (String × FieldDef)
  required : List String
  additionalProperties : Option Bool
deriving Repr

/-- `ToolSpec` (tools/registry.py lines 14-35).  Localized texts are
locale-keyed maps. -/
structure ToolSpec where
  name : String
  description : List (String × String)
  parameters : ParamsSchema
  required_slots : List String
  intents : List String
  enabled : Bool
  confirmation_required : Bool
  handler : Option String
  policy : List (String × String)
deriving Repr

/-- Localized text chosen as `d.get(locale) or d.get("en") or ""`
(tools/registry.py line 38, also product_rag.py lines 37-53 for
string-valued fields). -/
def getLocaleText (m : List (String × String)) (locale : String) : String :=
  let v1 := (alistGet m locale).getD ""
  if v1 ≠ "" then v1 else (alistGet m "en").getD ""

/-- `ToolSpec.to_openai_tool` (tools/registry.py lines 37-50): the schema
descriptor handed to the model.  The `or {}` normalization of an absent
`parameters` dict cannot arise here because `ParamsSchema` is total. -/
structure OpenAITool where
  type : String
  name : String
  description : String
  parameters : ParamsSchema
  strict : Bool
deriving Repr

def to_openai_tool (spec : ToolSpec) (locale : String) : OpenAITool where
  type := "function"
  name := spec.name
  description := pyStripStr (getLocaleText spec.description locale)
  parameters := spec.parameters
  strict := false

/-- The gating test applied to one `ToolSpec` inside the loop of
`ToolRegistry.get_allowed_tools` (tools/registry.py lines 122-155):
the tool survives when it is enabled, passes the confirmation-stage
gate, and passes the intent gate; the `required_slots` check
(lines 131-141) is deliberately a `pass`. -/
def allowed_tool_pred (confirm_slot intent stage : String) (spec : ToolSpec) : Bool :=
  spec.enabled
    && !(stage == confirm_slot && !spec.confirmation_required)
    && (if intent ≠ "" && !spec.intents.isEmpty then
          (stage == confirm_slot && spec.confirmation_required)
            || spec.intents.contains intent
        else true)

/-- `ToolRegistry.get_allowed_tools` (tools/registry.py lines 95-161).
`intent` and `stage` stand for `(route_plan or {}).get(...) or ""`; the
`slots` argument is normalized (`slots or {}`) and then never consulted. -/
def get_allowed_tools (reg_tools : List ToolSpec) (confirm_slot : String)
    (locale : String) (intent stage : String) (slots : ArgMap) :
    List OpenAITool :=
  let locale1 := pyStripStr (if locale = "" then "en" else locale)
  let _ := slots
  (reg_tools.filter (allowed_tool_pred confirm_slot intent stage)).map
    (fun spec => to_openai_tool spec locale1)

/-- Claim C10: `get_allowed_tools` never excludes a tool for missing
required slots.  Every enabled tool passing the stage gate and the intent
gate is returned for every slot map — in particular for a slot map carrying
none of its declared `required_slots` — and the returned list does not
depend on the slots at all. -/
theorem claim_C10 (reg_tools : List ToolSpec) (confirm_slot locale intent stage : String)
    (slots : ArgMap) (spec : ToolSpec)
    (hmem : spec ∈ reg_tools)
    (hen : spec.enabled = true)
    (hstage : stage = confirm_slot → spec.confirmation_required = true)
    (hintent : intent = "" ∨ spec.intents = []
      ∨ (stage = confirm_slot ∧ spec.confirmation_required = true)
      ∨ intent ∈ spec.intents) :
    to_openai_tool spec (pyStripStr (if locale = "" then "en" else locale))
        ∈ get_allowed_tools reg_tools confirm_slot locale intent stage slots
    ∧ (∀ slots2, get_allowed_tools reg_tools confirm_slot locale intent stage slots
        = get_allowed_tools reg_tools confirm_slot locale intent stage slots2) := by
  constructor
  · have hpred : allowed_tool_pred confirm_slot intent stage spec = true := by
      unfold allowed_tool_pred
      have h1 : (!(stage == confirm_slot && !spec.confirmation_required)) = true := by
        by_cases hs : stage = confirm_slot
        · simp [hs, hstage hs]
        · simp [hs]
      rw [hen, h1]
      by_cases hi : intent ≠ "" && !spec.intents.isEmpty
      · rw [if_pos hi]
        rcases hintent with h | h | h | h
        · rw [h] at hi
          simp at hi
        · rw [h] at hi
          simp at hi
        · simp [h.1, h.2]
        · have hc : spec.intents.contains intent = true := List.elem_iff.mpr h
          simp [hc]
          exact Or.inr h
      · rw [if_neg hi]
        rfl
    exact List.mem_map_of_mem _ (List.mem_filter_of_mem hmem hpred)
  · intro slots2
    rfl

/-- Claim C10, witness: a tool requiring slots `name` and `email` is still
offered when the slot map is empty. -/
theorem claim_C10_witness :
    to_openai_tool
        ⟨"send_inquiry", [], ⟨[], [], none⟩, ["name", "email"], [], true, true, some "h", []⟩
        "en"
      ∈ get_allowed_tools
        [⟨"send_inquiry", [], ⟨[], [], none⟩, ["name", "email"], [], true, true, some "h", []⟩]
        "confirm_send" "en" "" "" [] := by
  have h := claim_C10
    [⟨"send_inquiry", [], ⟨[], [], none⟩, ["name", "email"], [], true, true, some "h", []⟩]
    "confirm_send" "en" "" "" []
    ⟨"send_inquiry", [], ⟨[], [], none⟩, ["name", "email"], [], true, true, some "h", []⟩
    (by simp) rfl (fun _ => rfl) (Or.inl rfl)
  exact h.1

/-! ## Product catalog and resolver: `backend/app/products/resolve.py` -/

/-- A catalog product.  The raw data are dicts; the fields consulted by the
verified code paths are embedded, a missing field being the falsy `""` or
`[]` its `.get` default supplies.  Localized `name`/`description` are
locale-keyed string maps. -/
structure Product where
  id : String
  slug : String
  name : List (String × String)
  description : List (String × String)
  category : String
  tags : List String
  materials : String
  specifications : String
deriving Repr, DecidableEq, Inhabited

/-- Lookup in `ProductResolver._id_map` (resolve.py line 6): the dict maps
each truthy id to its product, later products overwriting earlier ones. -/
def idMapGet (products : List Product) (key : String) : Option Product :=
  ((products.filter (fun p => p.id != "")).reverse).find? (fun p => p.id == key)

/-- Lookup in `ProductResolver._slug_map` (resolve.py line 7). -/
def slugMapGet (products : List Product) (key : String) : Option Product :=
  ((products.filter (fun p => p.slug != "")).reverse).find? (fun p => p.slug == key)

/-- A resolved `{id, slug}` pair (resolve.py). -/
structure Resolved where
  id : String
  slug : String
deriving Repr, DecidableEq

/-- `ProductResolver.resolve` (resolve.py lines 9-66).  Entity-reference
arguments are strings here; `None` and `""` are the falsy inputs the code
tests with `if not product_id`. -/
def resolve (products : List Product) (product_id product_slug : Option String) :
    Option Resolved :=
  if ¬ (pyTruthy product_id = true) ∧ ¬ (pyTruthy product_slug = true) then none
  else
    let p_by_id :=
      if pyTruthy product_id then idMapGet products (product_id.getD "") else none
    let p_by_slug :=
      if pyTruthy product_slug then slugMapGet products (product_slug.getD "") else none
    if pyTruthy product_id ∧ pyTruthy product_slug then
      match p_by_id, p_by_slug with
      | some pi, some ps =>
        -- both arms of the consistency check return the pair found by id
        if pi.id = ps.id then some ⟨pi.id, pi.slug⟩ else some ⟨pi.id, pi.slug⟩
      | some pi, none => some ⟨pi.id, pi.slug⟩
      | none, some _ => none
      | none, none => none
    else if pyTruthy product_id then
      match p_by_id with
      | some pi => some ⟨pi.id, pi.slug⟩
      | none => none
    else
      match p_by_slug with
      | some ps => some ⟨ps.id, ps.slug⟩
      | none => none

/-! ## Schema validation: `backend/app/tools/schemas.py`

`create_tool_validator` builds a pydantic model from the JSON-schema-like
`parameters` dict and `dispatch` runs it over the raw arguments.  The
pydantic collaborator is embedded as a checker over `JValue` maps: a
declared field must be present with a value of its declared JSON type
(pydantic's lax numeric-string coercions are modeled as plain type checks —
the claims below depend only on an error being returned, not on which
borderline inputs coerce), a required field without default must be
present, an optional field admits `null` and materializes its default when
absent, and undeclared fields are rejected exactly when
`additionalProperties` is `false` (`extra="forbid"`), otherwise dropped
(`extra="ignore"`). -/

/-- JSON type check for a declared field (`schemas.py` lines 15-27 map the
type names onto Python types). Any unrecognized type name maps to `str`. -/
def typeMatches : String → JValue → Bool
  | "integer", .num _ => true
  | "number", .num _ => true
  | "boolean", .bool _ => true
  | "array", .arr _ => true
  | "object", .obj _ => true
  | t, .str _ =>
    t ≠ "integer" && t ≠ "number" && t ≠ "boolean" && t ≠ "array" && t ≠ "object"
  | _, _ => false

/-- Validation of one declared field: `Field(...)` when required without a
default (`schemas.py` lines 35-38), `Optional` with a default otherwise
(lines 39-42). -/
def validateField (name : String) (fd : FieldDef) (required : List String)
    (args : ArgMap) : Except String JValue :=
  let is_req := required.contains name && fd.default_val.isNone
  match alistGet args name with
  | some v =>
    if is_req then
      if typeMatches fd.type v then .ok v
      else .error ("invalid type for field " ++ name)
    else
      match v with
      | .null => .ok .null
      | _ =>
        if typeMatches fd.type v then .ok v
        else .error ("invalid type for field " ++ name)
  | none =>
    if is_req then .error ("missing required field " ++ name)
    else .ok (fd.default_val.getD .null)

/-- Validation of every declared field in declaration order; the output is
`validated.model_dump()`, one entry per declared field. -/
def validateFields (props : List (String × FieldDef)) (required : List String)
    (args : ArgMap) : Except String ArgMap :=
  match props with
  | [] => .ok []
  | (name, fd) :: rest => do
    let v ← validateField name fd required args
    let tail ← validateFields rest required args
    .ok ((name, v) :: tail)

/-- The pydantic validator built by `create_tool_validator`
(`schemas.py` lines 4-59) applied to the raw arguments, as `dispatch` does
with `validator_cls(**tool_args)` followed by `model_dump()`
(dispatcher.py lines 71-73). -/
def validate (schema : ParamsSchema) (args : ArgMap) : Except String ArgMap :=
  if schema.additionalProperties = some false
      ∧ args.any (fun kv => !(schema.properties.any (fun p => p.1 == kv.1))) then
    .error "extra fields not permitted"
  else
    validateFields schema.properties schema.required args

/-! ## Tool dispatcher: `backend/app/tools/dispatcher.py` -/

/-- The pinned entity of the conversation (`ctx.active_product`): a dict
carrying `id` and `slug`, either possibly absent. -/
structure PinnedEntity where
  id : Option String
  slug : Option String
deriving Repr, DecidableEq

/-- The tool-call context (`tools/base.py`), restricted to the fields the
dispatcher consults. An empty or missing `active_product` dict is `none`. -/
structure ToolContext where
  locale : String
  conversation_id : String
  slots : ArgMap
  active_product : Option PinnedEntity

/-- A registered handler (`ToolDispatcher.register`): a Python callable
that may raise, hence `Except`. -/
def Handler : Type := ToolContext → ArgMap → Except String JValue

/-- The dispatcher: the registry dict behind `self.registry._tools`, the
registered handler table, and the catalog behind `get_resolver()`. -/
structure ToolDispatcher where
  tools : List (String × ToolSpec)
  handlers : String → Option Handler
  products : List Product

/-- A structured error object `{"error": msg}` as returned by `dispatch`
on every failure path. -/
def errorObj (msg : String) : JValue :=
  .obj [("error", .str msg)]

/-- The `send_inquiry` product-resolution block of `dispatch`
(dispatcher.py lines 44-67): with a pinned active product the resolver is
consulted on the pinned id/slug first and only on the caller-supplied
arguments when that fails; a successful resolution overwrites the
`product_id`/`product_slug` arguments. -/
def pin_args (d : ToolDispatcher) (tool_name : String) (tool_args : ArgMap)
    (ctx : ToolContext) : ArgMap :=
  if tool_name = "send_inquiry" then
    let resolved0 : Option Resolved :=
      match ctx.active_product with
      | some pe => resolve d.products pe.id pe.slug
      | none => none
    let resolved : Option Resolved :=
      match resolved0 with
      | some r => some r
      | none =>
        resolve d.products
          (match alistGet tool_args "product_id" with
            | some (.str s) => some s
            | _ => none)
          (match alistGet tool_args "product_slug" with
            | some (.str s) => some s
            | _ => none)
    match resolved with
    | some r =>
      alistSet (alistSet tool_args "product_id" (.str r.id)) "product_slug" (.str r.slug)
    | none => tool_args
  else tool_args

/-- `ToolDispatcher.dispatch` (dispatcher.py lines 26-91): spec lookup,
handler-key check, `send_inquiry` pinning, schema validation, handler
lookup, execution with exceptions caught into structured errors. -/
def dispatch (d : ToolDispatcher) (tool_name : String) (tool_args : ArgMap)
    (ctx : ToolContext) : JValue :=
  match alistGet d.tools tool_name with
  | none => errorObj "tool not configured"
  | some tool_spec =>
    match tool_spec.handler with
    | none => errorObj "tool not configured with a handler"
    | some handler_key =>
      if handler_key = "" then errorObj "tool not configured with a handler"
      else
        match validate tool_spec.parameters (pin_args d tool_name tool_args ctx) with
        | .error e => errorObj ("Validation Error: " ++ e)
        | .ok validated =>
          match d.handlers handler_key with
          | none => errorObj "handler implementation missing"
          | some func =>
            match func ctx validated with
            | .ok v => v
            | .error e => errorObj e

/-- Claim C8: `dispatch` never propagates an exception — an unknown tool
name yields the structured not-configured error, a schema-validation
failure yields the structured validation error, and an exception raised by
the registered handler is caught and returned as a structured error
object. -/
theorem claim_C8 (d : ToolDispatcher) (tool_name : String) (tool_args : ArgMap)
    (ctx : ToolContext) :
    (alistGet d.tools tool_name = none →
      dispatch d tool_name tool_args ctx = errorObj "tool not configured")
    ∧ (∀ spec hk e, alistGet d.tools tool_name = some spec →
        spec.handler = some hk → hk ≠ "" →
        validate spec.parameters (pin_args d tool_name tool_args ctx) = .error e →
        dispatch d tool_name tool_args ctx = errorObj ("Validation Error: " ++ e))
    ∧ (∀ spec hk va func e, alistGet d.tools tool_name = some spec →
        spec.handler = some hk → hk ≠ "" →
        validate spec.parameters (pin_args d tool_name tool_args ctx) = .ok va →
        d.handlers hk = some func → func ctx va = .error e →
        dispatch d tool_name tool_args ctx = errorObj e) := by
  refine ⟨?_, ?_, ?_⟩
  · intro h
    simp only [dispatch, h]
  · intro spec hk e hspec hhk hne hval
    simp only [dispatch, hspec, hhk, if_neg hne, hval]
  · intro spec hk va func e hspec hhk hne hval hfunc herr
    simp only [dispatch, hspec, hhk, if_neg hne, hval, hfunc, herr]

/-- The `send_inquiry` parameter schema of the configuration (mirrored in
`backend/tests/test_chat_acceptance.py` lines 79-93): contact fields
required, entity references optional, extra fields forbidden. -/
def send_inquiry_schema : ParamsSchema :=
  ⟨[("name", ⟨"string", none⟩), ("email", ⟨"string", none⟩),
    ("message", ⟨"string", none⟩), ("product_id", ⟨"string", none⟩),
    ("product_slug", ⟨"string", none⟩), ("meta", ⟨"object", none⟩)],
    ["name", "email", "message"], some false⟩

/-- The `send_inquiry` tool spec with its handler key. -/
def send_inquiry_spec : ToolSpec :=
  ⟨"send_inquiry", [], send_inquiry_schema, ["name", "email", "message"], [],
    true, true, some "send_inquiry", []⟩

/-- A handler that raises (for exercising the exception-catching path). -/
def raisingHandler : Handler := fun _ _ => .error "smtp down"

/-- A handler that returns its received arguments (for observing what the
dispatcher passes to the registered handler). -/
def echoHandler : Handler := fun _ args => .ok (.obj args)

/-- Claim C8, witness: on a concrete dispatcher, an unknown tool, a
forbidden extra argument and a raising handler each come back as the
structured error object. -/
theorem claim_C8_witness :
    dispatch ⟨[("send_inquiry", send_inquiry_spec)],
        (fun k => if k == "send_inquiry" then some raisingHandler else none), []⟩
        "nope" [] ⟨"en", "c1", [], none⟩
      = errorObj "tool not configured"
    ∧ dispatch ⟨[("send_inquiry", send_inquiry_spec)],
        (fun k => if k == "send_inquiry" then some raisingHandler else none), []⟩
        "send_inquiry"
        [("name", .str "a"), ("email", .str "e"), ("message", .str "m"),
          ("hacker_field", .str "x")]
        ⟨"en", "c1", [], none⟩
      = errorObj ("Validation Error: " ++ "extra fields not permitted")
    ∧ dispatch ⟨[("send_inquiry", send_inquiry_spec)],
        (fun k => if k == "send_inquiry" then some raisingHandler else none), []⟩
        "send_inquiry"
        [("name", .str "a"), ("email", .str "e"), ("message", .str "m")]
        ⟨"en", "c1", [], none⟩
      = errorObj "smtp down" := by
  refine ⟨?_, ?_, ?_⟩
  · exact (claim_C8 _ _ _ _).1 rfl
  · exact (claim_C8 _ _ _ _).2.1 send_inquiry_spec "send_inquiry"
      "extra fields not permitted" rfl rfl (by decide) rfl
  · exact (claim_C8 _ _ _ _).2.2 send_inquiry_spec "send_inquiry"
      [("name", .str "a"), ("email", .str "e"), ("message", .str "m"),
        ("product_id", .null), ("product_slug", .null), ("meta", .null)]
      raisingHandler "smtp down" rfl rfl (by decide) rfl rfl rfl

/-! ### The anti-drift pinning rule (claim C1) -/

lemma idMapGet_id (products : List Product) (i : String) (p : Product)
    (h : idMapGet products i = some p) : p.id = i := by
  have := List.find?_some h
  simpa [beq_iff_eq] using this

/-- With a pinned product that the catalog resolves (its id is in the id
map and carries the pinned slug), `resolve` returns exactly the pinned
pair, whatever the slug map says. -/
lemma resolve_pinned (products : List Product) (i s : String) (p : Product)
    (hi : i ≠ "") (hp : idMapGet products i = some p) (hps : p.slug = s) :
    resolve products (some i) (some s) = some ⟨i, s⟩ := by
  have hpid : p.id = i := idMapGet_id products i p hp
  have hti : pyTruthy (some i) = true := by simp [pyTruthy, hi]
  by_cases hs0 : s = ""
  · have hts : pyTruthy (some s) = false := by simp [pyTruthy, hs0]
    simp only [resolve, hti, hts, Bool.true_eq_false, not_false_eq_true,
      Bool.false_eq_true, and_false, false_and, if_false, if_true, hp,
      not_true_eq_false, false_iff, and_true, true_and]
    simp [hp, hpid, hps]
  · have hts : pyTruthy (some s) = true := by simp [pyTruthy, hs0]
    simp only [resolve, hti, hts]
    simp only [not_true_eq_false, and_self, if_false, if_true, hp]
    cases hq : slugMapGet products s <;> simp [hp, hq, hpid, hps]

/-- The pinning block rewrites the entity-reference arguments to the
resolved pinned pair, whatever the caller supplied. -/
lemma pin_args_pinned (d : ToolDispatcher) (ctx : ToolContext) (pe : PinnedEntity)
    (i s : String) (p : Product) (tool_args : ArgMap)
    (hpe : ctx.active_product = some pe)
    (hid : pe.id = some i) (hi : i ≠ "") (hslug : pe.slug = some s)
    (hp : idMapGet d.products i = some p) (hps : p.slug = s) :
    pin_args d "send_inquiry" tool_args ctx
      = alistSet (alistSet tool_args "product_id" (.str i)) "product_slug" (.str s) := by
  unfold pin_args
  rw [if_pos rfl, hpe]
  dsimp only
  rw [hid, hslug, resolve_pinned d.products i s p hi hp hps]

lemma validateFields_preserves_str (props : List (String × FieldDef))
    (required : List String) (args va : ArgMap) (name : String) (fd : FieldDef)
    (x : String)
    (hfd : alistGet props name = some fd) (hft : fd.type = "string")
    (hargs : alistGet args name = some (.str x))
    (hok : validateFields props required args = .ok va) :
    alistGet va name = some (.str x) := by
  induction props generalizing va with
  | nil => exact absurd hfd (by simp [alistGet])
  | cons kv rest ih =>
    obtain ⟨n1, fd1⟩ := kv
    rw [validateFields] at hok
    cases hv : validateField n1 fd1 required args with
    | error e => rw [hv] at hok; exact absurd hok (by simp [Bind.bind, Except.bind])
    | ok v =>
      rw [hv] at hok
      cases ht : validateFields rest required args with
      | error e => rw [ht] at hok; exact absurd hok (by simp [Bind.bind, Except.bind])
      | ok tail =>
        rw [ht] at hok
        have hva : va = (n1, v) :: tail := by
          have h2 := hok
          simp only [Bind.bind, Except.bind, Except.ok.injEq] at h2
          exact h2.symm
        subst hva
        by_cases hn : n1 = name
        · rw [alistGet_cons, if_pos hn] at hfd
          obtain rfl : fd1 = fd := by simpa using hfd
          have hargs1 : alistGet args n1 = some (.str x) := hn ▸ hargs
          have hv2 : v = .str x := by
            rw [validateField, hargs1] at hv
            dsimp only at hv
            have htm : typeMatches fd1.type (.str x) = true := by rw [hft]; rfl
            by_cases hr : (required.contains n1 && fd1.default_val.isNone) = true
            · rw [if_pos hr, if_pos htm] at hv
              injection hv with h3
              exact h3.symm
            · rw [if_neg hr, if_pos htm] at hv
              injection hv with h3
              exact h3.symm
          rw [alistGet_cons, if_pos hn, hv2]
        · rw [alistGet_cons, if_neg hn] at hfd
          rw [alistGet_cons, if_neg hn]
          exact ih tail hfd ht

lemma validate_of_ok (schema : ParamsSchema) (args va : ArgMap)
    (hok : validate schema args = .ok va) :
    validateFields schema.properties schema.required args = .ok va := by
  rw [validate] at hok
  by_cases hc : schema.additionalProperties = some false
      ∧ args.any (fun kv => !(schema.properties.any (fun p => p.1 == kv.1))) = true
  · rw [if_pos hc] at hok
    exact absurd hok (by simp)
  · rwa [if_neg hc] at hok

/-- Claim C1: whenever the context of a `send_inquiry` dispatch carries a
pinned active product that the catalog resolves, the registered handler is
invoked with `product_id` and `product_slug` equal to the pinned id and
slug, whatever conflicting values the caller-supplied raw arguments hold:
the validated argument map `va` passed to the handler carries the pinned
pair, and the dispatch result is exactly the handler outcome on `va`. -/
theorem claim_C1 (d : ToolDispatcher) (ctx : ToolContext) (pe : PinnedEntity)
    (i s : String) (p : Product) (tool_args : ArgMap) (spec : ToolSpec)
    (hk : String) (func : Handler) (va : ArgMap)
    (hpe : ctx.active_product = some pe)
    (hid : pe.id = some i) (hi : i ≠ "") (hslug : pe.slug = some s)
    (hp : idMapGet d.products i = some p) (hps : p.slug = s)
    (hspec : alistGet d.tools "send_inquiry" = some spec)
    (hhk : spec.handler = some hk) (hne : hk ≠ "")
    (hfd_id : ∃ fd, alistGet spec.parameters.properties "product_id" = some fd
      ∧ fd.type = "string")
    (hfd_slug : ∃ fd, alistGet spec.parameters.properties "product_slug" = some fd
      ∧ fd.type = "string")
    (hval : validate spec.parameters (pin_args d "send_inquiry" tool_args ctx) = .ok va)
    (hfunc : d.handlers hk = some func) :
    alistGet va "product_id" = some (.str i)
    ∧ alistGet va "product_slug" = some (.str s)
    ∧ dispatch d "send_inquiry" tool_args ctx
        = (match func ctx va with
            | .ok v => v
            | .error e => errorObj e) := by
  have hpin := pin_args_pinned d ctx pe i s p tool_args hpe hid hi hslug hp hps
  have hargs_id : alistGet (pin_args d "send_inquiry" tool_args ctx) "product_id"
      = some (.str i) := by
    rw [hpin, alistGet_set_ne _ _ _ _ (by decide), alistGet_set_self]
  have hargs_slug : alistGet (pin_args d "send_inquiry" tool_args ctx) "product_slug"
      = some (.str s) := by
    rw [hpin, alistGet_set_self]
  have hvf := validate_of_ok spec.parameters _ va hval
  obtain ⟨fdi, hfdi, hfti⟩ := hfd_id
  obtain ⟨fds, hfds, hfts⟩ := hfd_slug
  refine ⟨?_, ?_, ?_⟩
  · exact validateFields_preserves_str spec.parameters.properties
      spec.parameters.required _ va "product_id" fdi i hfdi hfti hargs_id hvf
  · exact validateFields_preserves_str spec.parameters.properties
      spec.parameters.required _ va "product_slug" fds s hfds hfts hargs_slug hvf
  · simp only [dispatch, hspec, hhk, if_neg hne, hval, hfunc]

/-- Claim C1, witness (Scenario D): catalog items `x-id` and `y-id`, the
pinned active product is `y-id`, the raw arguments claim `x-id`; the echo
handler receives the pinned pair. -/
theorem claim_C1_witness :
    alistGet [("name", JValue.str "a"), ("email", .str "e"), ("message", .str "m"),
        ("product_id", .str "y-id"), ("product_slug", .str "y-slug"), ("meta", .null)]
        "product_id" = some (.str "y-id")
    ∧ alistGet [("name", JValue.str "a"), ("email", .str "e"), ("message", .str "m"),
        ("product_id", .str "y-id"), ("product_slug", .str "y-slug"), ("meta", .null)]
        "product_slug" = some (.str "y-slug")
    ∧ dispatch
        ⟨[("send_inquiry", send_inquiry_spec)],
          (fun k => if k == "send_inquiry" then some echoHandler else none),
          [⟨"x-id", "x-slug", [("en", "X")], [], "", [], "", ""⟩,
            ⟨"y-id", "y-slug", [("en", "Y")], [], "", [], "", ""⟩]⟩
        "send_inquiry"
        [("name", .str "a"), ("email", .str "e"), ("message", .str "m"),
          ("product_id", .str "x-id"), ("product_slug", .str "x-slug")]
        ⟨"en", "c1", [], some ⟨some "y-id", some "y-slug"⟩⟩
      = .obj [("name", .str "a"), ("email", .str "e"), ("message", .str "m"),
          ("product_id", .str "y-id"), ("product_slug", .str "y-slug"), ("meta", .null)] := by
  have h := claim_C1
    ⟨[("send_inquiry", send_inquiry_spec)],
      (fun k => if k == "send_inquiry" then some echoHandler else none),
      [⟨"x-id", "x-slug", [("en", "X")], [], "", [], "", ""⟩,
        ⟨"y-id", "y-slug", [("en", "Y")], [], "", [], "", ""⟩]⟩
    ⟨"en", "c1", [], some ⟨some "y-id", some "y-slug"⟩⟩
    ⟨some "y-id", some "y-slug"⟩ "y-id" "y-slug"
    ⟨"y-id", "y-slug", [("en", "Y")], [], "", [], "", ""⟩
    [("name", .str "a"), ("email", .str "e"), ("message", .str "m"),
      ("product_id", .str "x-id"), ("product_slug", .str "x-slug")]
    send_inquiry_spec "send_inquiry" echoHandler
    [("name", .str "a"), ("email", .str "e"), ("message", .str "m"),
      ("product_id", .str "y-id"), ("product_slug", .str "y-slug"), ("meta", .null)]
    rfl rfl (by decide) rfl rfl rfl rfl rfl (by decide)
    ⟨⟨"string", none⟩, rfl, rfl⟩ ⟨⟨"string", none⟩, rfl, rfl⟩ rfl rfl
  exact ⟨h.1, h.2.1, h.2.2⟩

/-! ## Agent loop: `backend/app/api/routes/chat.py`

The bounded model-call / tool-call cycle of the `chat` endpoint
(lines 94-175); the streaming endpoint `chat_stream` (lines 220-357) drives
the same turn structure, accumulating the streamed deltas of a turn into
the text that `chat` receives at once.  The LLM is an external
collaborator: the sequence of its replies is a function parameter indexed
by the model-call number, and `process_tool_call` (service.py lines
642-754) is a function parameter returning its standardized result
record. -/

/-- One tool call extracted from a model response. -/
structure AgentToolCall where
  name : String
  arguments : ArgMap

/-- A (normalized) model response: accumulated text plus at most one tool
call, the contract of `llm.complete` / `llm.stream`. -/
structure ModelResult where
  text : String
  tool_call : Option AgentToolCall

/-- The standardized result of `ChatService.process_tool_call`
(service.py lines 663-673), restricted to the fields the loop reads. -/
structure ProcResult where
  skip_reason : Option String
  client_response : String
  ui_action : Option String
  ui_data : Option JValue
  system_msg : Option String

/-- The non-streaming response record (`ChatResponse`). -/
structure ChatOut where
  response : String
  action : Option String
  action_data : Option JValue

/-- `MAX_TURNS` (chat.py lines 95 and 222). -/
def MAX_TURNS : Nat := 2

/-- One pass of the `for turn in range(MAX_TURNS)` loop of `chat`
(chat.py lines 108-166), recursing on the remaining turn budget and
returning the number of model calls made together with the final
response.  A response without tool call returns that turn's text at once;
a skip reason on a sensitive tool returns the partial text joined with the
client response; otherwise the assistant text and the tool's system
message are appended to the history and the loop advances. -/
def chat_loop_aux (llm_responses : Nat → ModelResult)
    (process_tool_call : AgentToolCall → ProcResult) :
    Nat → Nat → List Msg → Option String → Option JValue → Nat × ChatOut
  | _, 0, _, final_action, final_action_data =>
    (0, ⟨"", final_action, final_action_data⟩)
  | turn, remaining + 1, current_messages, final_action, final_action_data =>
    let result := llm_responses turn
    match result.tool_call with
    | none => (1, ⟨result.text, final_action, final_action_data⟩)
    | some tc =>
      let messages1 := current_messages ++ [⟨"assistant", result.text⟩]
      let proc_res := process_tool_call tc
      match proc_res.skip_reason with
      | some _ =>
        (1, ⟨pyStripStr (result.text ++ "\n\n" ++ proc_res.client_response), none, none⟩)
      | none =>
        let acc := match proc_res.ui_action with
          | some a => (some a, proc_res.ui_data)
          | none => (final_action, final_action_data)
        let messages2 := match proc_res.system_msg with
          | some m => messages1 ++ [⟨"user", m⟩]
          | none => messages1
        let rec_res := chat_loop_aux llm_responses process_tool_call
          (turn + 1) remaining messages2 acc.1 acc.2
        (rec_res.1 + 1, rec_res.2)

/-- The whole loop of `chat` starting from the prepared messages. -/
def chat_loop (llm_responses : Nat → ModelResult)
    (process_tool_call : AgentToolCall → ProcResult) (messages : List Msg) :
    Nat × ChatOut :=
  chat_loop_aux llm_responses process_tool_call 0 MAX_TURNS messages none none

lemma chat_loop_aux_le (llm_responses : Nat → ModelResult)
    (process_tool_call : AgentToolCall → ProcResult) (turn remaining : Nat)
    (messages : List Msg) (fa : Option String) (fd : Option JValue) :
    (chat_loop_aux llm_responses process_tool_call turn remaining messages fa fd).1
      ≤ remaining := by
  induction remaining generalizing turn messages fa fd with
  | zero => simp [chat_loop_aux]
  | succ r ih =>
    cases htc : (llm_responses turn).tool_call with
    | none => simp [chat_loop_aux, htc]
    | some tc =>
      cases hsr : (process_tool_call tc).skip_reason with
      | some sr => simp [chat_loop_aux, htc, hsr]
      | none =>
        simp only [chat_loop_aux, htc, hsr]
        exact Nat.succ_le_succ (ih _ _ _ _)

/-- Claim C5: for every sequence of model responses — including ones
requesting a tool call on every turn — the agent loop makes at most
`MAX_TURNS = 2` model calls; the first turn without tool call ends the loop
at once with that turn's accumulated text as the final response, whether it
is the first turn or the turn following a successful tool dispatch. -/
theorem claim_C5 (llm_responses : Nat → ModelResult)
    (process_tool_call : AgentToolCall → ProcResult) (messages : List Msg) :
    (chat_loop llm_responses process_tool_call messages).1 ≤ MAX_TURNS
    ∧ ((llm_responses 0).tool_call = none →
        chat_loop llm_responses process_tool_call messages
          = (1, ⟨(llm_responses 0).text, none, none⟩))
    ∧ (∀ tc, (llm_responses 0).tool_call = some tc →
        (process_tool_call tc).skip_reason = none →
        (llm_responses 1).tool_call = none →
        (chat_loop llm_responses process_tool_call messages).1 = 2
        ∧ (chat_loop llm_responses process_tool_call messages).2.response
            = (llm_responses 1).text) := by
  refine ⟨chat_loop_aux_le _ _ _ _ _ _ _, ?_, ?_⟩
  · intro h
    rw [chat_loop, MAX_TURNS, chat_loop_aux, h]
  · intro tc h0 hskip h1
    rw [chat_loop, MAX_TURNS, chat_loop_aux, h0]
    simp only [hskip]
    rw [chat_loop_aux, h1]
    exact ⟨rfl, rfl⟩

/-- Claim C5, witness: a model that asks for a tool call on the first turn
and answers plainly on the second makes exactly two model calls and ends
with the second text; a model that never calls a tool ends after one. -/
theorem claim_C5_witness :
    ((chat_loop (fun _ => ⟨"hello", none⟩) (fun _ => ⟨none, "", none, none, none⟩) []).1
        ≤ MAX_TURNS
      ∧ chat_loop (fun _ => ⟨"hello", none⟩) (fun _ => ⟨none, "", none, none, none⟩) []
          = (1, ⟨"hello", none, none⟩))
    ∧ ((chat_loop
          (fun n => if n = 0 then ⟨"", some ⟨"product_search", []⟩⟩ else ⟨"done", none⟩)
          (fun _ => ⟨none, "", some "product_search", none, some "System Notification"⟩)
          []).1 = 2
        ∧ (chat_loop
            (fun n => if n = 0 then ⟨"", some ⟨"product_search", []⟩⟩ else ⟨"done", none⟩)
            (fun _ => ⟨none, "", some "product_search", none, some "System Notification"⟩)
            []).2.response = "done") := by
  constructor
  · have h := claim_C5 (fun _ => ⟨"hello", none⟩)
      (fun _ => ⟨none, "", none, none, none⟩) []
    exact ⟨h.1, h.2.1 rfl⟩
  · have h := claim_C5
      (fun n => if n = 0 then ⟨"", some ⟨"product_search", []⟩⟩ else ⟨"done", none⟩)
      (fun _ => ⟨none, "", some "product_search", none, some "System Notification"⟩) []
    exact h.2.2 ⟨"product_search", []⟩ rfl rfl rfl

/-! ## Product retriever: `backend/app/product_rag.py`

`exact_match` and `retrieve` (lines 189-276).  The difflib
`SequenceMatcher.ratio` similarity and the embedding-backed
`semantic_search` are external collaborators, passed as function
parameters (`fuzzy`, `semantic_search`); the exact-match layers never
consult them. -/

/-- The bracket characters removed by `_norm` (product_rag.py line 27). -/
def isPyBracket (c : Char) : Bool :=
  c == '(' || c == ')' || c == '（' || c == '）' || c == '[' || c == ']'
    || c == '【' || c == '】' || c == '\x7b' || c == '\x7d' || c == '<' || c == '>'

/-- Python `s.strip()` on a character list. -/
def pyStrip (l : List Char) : List Char :=
  ((l.dropWhile Char.isWhitespace).reverse.dropWhile Char.isWhitespace).reverse

/-- Python `re.sub(r"\s+", " ", s)`: every maximal whitespace run becomes
a single space (no trimming). -/
def collapseWS : List Char → List Char
  | [] => []
  | [c] => if c.isWhitespace then [' '] else [c]
  | c1 :: c2 :: rest =>
    if c1.isWhitespace && c2.isWhitespace then collapseWS (c2 :: rest)
    else (if c1.isWhitespace then ' ' else c1) :: collapseWS (c2 :: rest)

/-- `_norm` (product_rag.py lines 23-29): strip, lowercase, collapse
whitespace, replace brackets by spaces, collapse again.  The bracket
substitution can reintroduce boundary spaces, exactly as in the source. -/
def _norm (s : String) : String :=
  let l1 := collapseWS ((pyStrip s.data).map Char.toLower)
  ⟨collapseWS (l1.map (fun c => if isPyBracket c then ' ' else c))⟩

/-- `ProductRAG.exact_match` (product_rag.py lines 189-246): id/slug
substring hit, then bidirectional localized-name containment, then the
fuzzy layer over the `fuzzy` similarity oracle with the 0.84 threshold. -/
def exact_match (fuzzy : String → String → ℚ) (products : List Product)
    (query locale : String) : Option Product :=
  let qn := _norm query
  if qn = "" then none
  else
    match products.find? (fun p =>
        ((_norm p.id != "") && strIn (_norm p.id) qn)
          || ((_norm p.slug != "") && strIn (_norm p.slug) qn)) with
    | some p => some p
    | none =>
      match products.find? (fun p =>
          [_norm (getLocaleText p.name locale), _norm (getLocaleText p.name "en"),
            _norm (getLocaleText p.name "zh")].any
            (fun cand => (cand != "") && (strIn cand qn || strIn qn cand))) with
      | some p => some p
      | none =>
        let best := products.foldl (fun acc p =>
          let candidates := ([_norm (getLocaleText p.name locale),
            _norm (getLocaleText p.name "en"), _norm (getLocaleText p.name "zh"),
            _norm p.slug]).filter (fun c => c != "")
          match candidates with
          | [] => acc
          | c0 :: cs =>
            let s := (cs.map (fuzzy qn)).foldl max (fuzzy qn c0)
            if acc.1 < s then (s, some p) else acc) ((0 : ℚ), (none : Option Product))
        if (0.84 : ℚ) ≤ best.1 then best.2 else none

/-- The result of `ProductRAG.retrieve` (product_rag.py lines 265-276). -/
structure RetrieveResult where
  mode : String
  products : List Product
deriving Repr, DecidableEq

/-- `ProductRAG.retrieve` (product_rag.py lines 265-276): an exact match
wins and is returned alone; otherwise the semantic top-k (the
`semantic_search` collaborator, scores already stripped) tagged `rag`. -/
def retrieve (fuzzy : String → String → ℚ)
    (semantic_search : String → Nat → List Product) (products : List Product)
    (query locale : String) (k : Nat) : RetrieveResult :=
  match exact_match fuzzy products query locale with
  | some hit => ⟨"exact", [hit]⟩
  | none => ⟨"rag", semantic_search query k⟩

/-- Claim C4, counterexample: with catalog ids `a` before `b`, the
normalized query `a b` contains item `b`'s id as a substring, yet
`retrieve` returns the single item `a` — the first match in catalog order —
not item `b` as the claim demands for `b`. -/
theorem claim_C4_counterexample :
    strIn (_norm "b") (_norm "a b") = true
    ∧ _norm "b" ≠ ""
    ∧ retrieve (fun _ _ => 0) (fun _ _ => [])
        [⟨"a", "", [], [], "", [], "", ""⟩, ⟨"b", "", [], [], "", [], "", ""⟩]
        "a b" "en" 5
        = ⟨"exact", [⟨"a", "", [], [], "", [], "", ""⟩]⟩
    ∧ (⟨"a", "", [], [], "", [], "", ""⟩ : Product)
        ≠ ⟨"b", "", [], [], "", [], "", ""⟩ := by
  refine ⟨by decide, by decide, by decide, by decide⟩

lemma strIn_empty_hay (n : String) (hn : n ≠ "") : strIn n "" = false := by
  have hd : n.data ≠ [] := fun h0 => hn (by
    have he : n = ⟨n.data⟩ := rfl
    rw [he, h0])
  rw [strIn]
  show hasSubList [] n.data = false
  rw [hasSubList]
  cases hl : n.data with
  | nil => exact absurd hl hd
  | cons c cs => rfl

/-- Claim C4, amended: for a catalog item whose nonempty normalized id or
slug occurs in the normalized query, and with no earlier catalog item in
that position, `retrieve` returns mode `exact` with exactly that single
item, for every `k`, every locale, and every fuzzy or semantic oracle
(semantic search is never consulted). -/
theorem claim_C4_amended (fuzzy : String → String → ℚ)
    (semantic_search : String → Nat → List Product)
    (pre post : List Product) (item : Product) (query locale : String) (k : Nat)
    (hhit : (((_norm item.id != "") && strIn (_norm item.id) (_norm query))
      || ((_norm item.slug != "") && strIn (_norm item.slug) (_norm query))) = true)
    (hpre : ∀ p ∈ pre,
      (((_norm p.id != "") && strIn (_norm p.id) (_norm query))
        || ((_norm p.slug != "") && strIn (_norm p.slug) (_norm query))) = false) :
    retrieve fuzzy semantic_search (pre ++ item :: post) query locale k
      = ⟨"exact", [item]⟩ := by
  have hq : ¬ (_norm query = "") := by
    intro h0
    rw [Bool.or_eq_true, Bool.and_eq_true, Bool.and_eq_true] at hhit
    rcases hhit with ⟨h1, h2⟩ | ⟨h1, h2⟩ <;>
      [ rw [h0, strIn_empty_hay _ (by simpa using h1)] at h2 ;
        rw [h0, strIn_empty_hay _ (by simpa using h1)] at h2 ] <;>
      exact Bool.false_ne_true h2
  have hfind : (pre ++ item :: post).find? (fun p =>
      ((_norm p.id != "") && strIn (_norm p.id) (_norm query))
        || ((_norm p.slug != "") && strIn (_norm p.slug) (_norm query)))
      = some item := by
    rw [List.find?_append]
    rw [List.find?_eq_none.mpr (by
      intro p hp
      simp only [hpre p hp, Bool.false_eq_true, not_false_eq_true])]
    rw [Option.none_or]
    exact List.find?_cons_of_pos _ hhit
  rw [retrieve, exact_match]
  simp only [if_neg hq, hfind]

/-- Claim C4, witness (Scenario A): the query
`red JWL-OUTDOOR-018 backpack` against a catalog containing id
`jwl-outdoor-018` returns exactly that item as a single exact match,
with the semantic oracle unused. -/
theorem claim_C4_witness :
    retrieve (fun _ _ => 0) (fun _ _ => [])
      [⟨"jwl-outdoor-018", "multi-day-hiking-backpack",
        [("en", "Multi-day Hiking Backpack")], [], "Backpacks", ["hiking"], "", ""⟩]
      "red JWL-OUTDOOR-018 backpack" "en" 3
      = ⟨"exact", [⟨"jwl-outdoor-018", "multi-day-hiking-backpack",
        [("en", "Multi-day Hiking Backpack")], [], "Backpacks", ["hiking"], "", ""⟩]⟩ := by
  exact claim_C4_amended (fun _ _ => 0) (fun _ _ => []) [] []
    ⟨"jwl-outdoor-018", "multi-day-hiking-backpack",
      [("en", "Multi-day Hiking Backpack")], [], "Backpacks", ["hiking"], "", ""⟩
    "red JWL-OUTDOOR-018 backpack" "en" 3 (by decide)
    (by intro p hp; simp at hp)

/-! ## Embedding cache of the index build: `backend/app/product_rag.py`

`ProductRAG.build_index` (lines 91-140).  The sha256 content hash and the
embedding provider are external collaborators passed as functions.  The
persistent cache behind `get_cached_product_embedding` /
`upsert_product_embedding` (adapters/db.py lines 120-151) is the
`product_embeddings` table with `PRIMARY KEY (product_id, model)`: one row
per `(product_id, model)` holding the stored `doc_hash` and the vector, so
it is a map from `(product_id, model)` to an optional
`(doc_hash, vector)` row of the abstract vector type `V`. -/

/-- `product_to_doc_text` (product_rag.py lines 55-78). -/
def product_to_doc_text (p : Product) : String :=
  String.intercalate "\n"
    ["id: " ++ p.id,
      "slug: " ++ p.slug,
      "category: " ++ p.category,
      "tags: " ++ String.intercalate " " p.tags,
      "name_en: " ++ getLocaleText p.name "en",
      "name_zh: " ++ getLocaleText p.name "zh",
      "desc_en: " ++ getLocaleText p.description "en",
      "desc_zh: " ++ getLocaleText p.description "zh",
      "materials: " ++ p.materials,
      "specifications: " ++ p.specifications]

/-- The embedding cache: one row per `(product_id, model)` holding
`(doc_hash, vector)`, as the `product_embeddings` table. -/
def EmbCache (V : Type) : Type := String → String → Option (String × V)

/-- `get_cached_product_embedding(product_id, model, doc_hash)`
(adapters/db.py lines 120-133): the `SELECT` matches on all three columns,
so the row must exist and its stored `doc_hash` must equal the queried
one. -/
def cacheGet {V : Type} (c : EmbCache V) (pid model h : String) : Option V :=
  match c pid model with
  | some row => if row.1 = h then some row.2 else none
  | none => none

/-- `upsert_product_embedding` (adapters/db.py lines 136-151):
`INSERT ... ON CONFLICT(product_id, model) DO UPDATE` replaces the whole
row, so the previously stored `doc_hash` (and vector) of that
`(product_id, model)` is destroyed. -/
def cacheUpsert {V : Type} (c : EmbCache V) (pid model h : String) (v : V) :
    EmbCache V :=
  fun a b => if a = pid ∧ b = model then some (h, v) else c a b

/-- The document text of product `i` (`self._doc_texts[i]`). -/
def docTextAt (products : List Product) (i : Nat) : String :=
  (products.map product_to_doc_text).getD i ""

/-- The cache id of product `i` (`p.get("id") or ""`). -/
def pidTextAt (products : List Product) (i : Nat) : String :=
  (products.getD i default).id

/-- The outcome of `build_index`: the vector slot per product, the cache
after the upserts, and the miss bookkeeping. -/
structure BuildResult (V : Type) where
  vecs : List (Option V)
  cache_after : EmbCache V
  missing_idxs : List Nat
  missing_texts : List String

/-- `ProductRAG.build_index` (product_rag.py lines 91-140): scan the cache
per product, batch-embed exactly the misses, fill the vector table from
cache hits and fresh embeddings (`zip(missing_idxs, new_vecs)`), and upsert
each fresh embedding under its `(id, model, hash)` key. -/
def build_index {V : Type} (hashFn : String → String) (embedFn : List String → List V)
    (model : String) (cache : EmbCache V) (products : List Product) : BuildResult V :=
  let n := products.length
  let missing_idxs := (List.range n).filter
    (fun i =>
      (cacheGet cache (pidTextAt products i) model (hashFn (docTextAt products i))).isNone)
  let missing_texts := missing_idxs.map (docTextAt products)
  let new_vecs := embedFn missing_texts
  let pairs := missing_idxs.zip new_vecs
  let vecs := (List.range n).map (fun i =>
    match cacheGet cache (pidTextAt products i) model (hashFn (docTextAt products i)) with
    | some v => some v
    | none => (pairs.find? (fun pr => pr.1 == i)).map Prod.snd)
  let cache_after := pairs.foldl
    (fun c pr =>
      cacheUpsert c (pidTextAt products pr.1) model (hashFn (docTextAt products pr.1)) pr.2)
    cache
  ⟨vecs, cache_after, missing_idxs, missing_texts⟩

lemma getD_map_range {α : Type} (n : Nat) (f : Nat → Option α) (i : Nat) (h : i < n) :
    ((List.range n).map f).getD i none = f i := by
  rw [List.getD_eq_getElem?_getD, List.getElem?_map, List.getElem?_range h]
  rfl

lemma zip_find_of_mem {V : Type} :
    ∀ (l : List Nat) (vs : List V) (i : Nat), i ∈ l → vs.length = l.length →
      ∃ v, (l.zip vs).find? (fun pr => pr.1 == i) = some (i, v) := by
  intro l
  induction l with
  | nil => intro vs i hi _; exact absurd hi (List.not_mem_nil i)
  | cons a l1 ih =>
    intro vs i hi hlen
    cases vs with
    | nil => simp at hlen
    | cons v0 vs1 =>
      by_cases ha : a = i
      · subst ha
        exact ⟨v0, List.find?_cons_of_pos _ (by simp)⟩
      · have hi1 : i ∈ l1 := by
          cases List.mem_cons.mp hi with
          | inl h => exact absurd h.symm ha
          | inr h => exact h
        have hlen1 : vs1.length = l1.length := by simpa using hlen
        obtain ⟨v, hv⟩ := ih vs1 i hi1 hlen1
        refine ⟨v, ?_⟩
        rw [List.zip_cons_cons, List.find?_cons_of_neg _ (by simp [ha]), hv]

lemma zip_nodup_unique {V : Type} :
    ∀ (l : List Nat) (vs : List V), l.Nodup →
      ∀ (i : Nat) (b c : V), (i, b) ∈ l.zip vs → (i, c) ∈ l.zip vs → b = c := by
  intro l
  induction l with
  | nil => intro vs _ i b c hb _; simp at hb
  | cons a l1 ih =>
    intro vs hnd i b c hb hc
    cases vs with
    | nil => simp at hb
    | cons v0 vs1 =>
      rw [List.nodup_cons] at hnd
      rw [List.zip_cons_cons, List.mem_cons] at hb hc
      cases hb with
      | inl h1 =>
        obtain ⟨rfl, rfl⟩ : a = i ∧ v0 = b := by
          have h1a := congrArg Prod.fst h1
          have h1b := congrArg Prod.snd h1
          exact ⟨h1a.symm, h1b.symm⟩
        cases hc with
        | inl h2 => exact congrArg Prod.snd h2.symm
        | inr h2 => exact absurd (List.of_mem_zip h2).1 hnd.1
      | inr h1 =>
        cases hc with
        | inl h2 =>
          obtain rfl : a = i := congrArg Prod.fst h2.symm
          exact absurd (List.of_mem_zip h1).1 hnd.1
        | inr h2 => exact ih vs1 hnd.2 i b c h1 h2

lemma foldl_row_stable {V : Type} (keyPid keyHash : Nat → String) (model : String)
    (i : Nat) (v : V) :
    ∀ (pairs : List (Nat × V)) (c : EmbCache V),
      c (keyPid i) model = some (keyHash i, v) →
      (∀ pr ∈ pairs, keyPid pr.1 = keyPid i → pr.2 = v ∧ keyHash pr.1 = keyHash i) →
      (pairs.foldl (fun c pr =>
          cacheUpsert c (keyPid pr.1) model (keyHash pr.1) pr.2) c)
        (keyPid i) model = some (keyHash i, v) := by
  intro pairs
  induction pairs with
  | nil => intro c hc _; exact hc
  | cons pr rest ih =>
    intro c hc hsame
    rw [List.foldl_cons]
    apply ih
    · by_cases hk : keyPid i = keyPid pr.1 ∧ model = model
      · have h2 := hsame pr (List.mem_cons_self pr rest) hk.1.symm
        rw [cacheUpsert, if_pos hk, h2.1, h2.2]
      · rw [cacheUpsert, if_neg hk]
        exact hc
    · intro qr hqr hkq
      exact hsame qr (List.mem_cons_of_mem pr hqr) hkq

lemma foldl_row_value {V : Type} (keyPid keyHash : Nat → String) (model : String)
    (i : Nat) (v : V) :
    ∀ (pairs : List (Nat × V)) (c : EmbCache V),
      pairs.find? (fun pr => pr.1 == i) = some (i, v) →
      (∀ pr ∈ pairs, keyPid pr.1 = keyPid i → pr.1 = i) →
      (∀ pr ∈ pairs, pr.1 = i → pr.2 = v) →
      (pairs.foldl (fun c pr =>
          cacheUpsert c (keyPid pr.1) model (keyHash pr.1) pr.2) c)
        (keyPid i) model = some (keyHash i, v) := by
  intro pairs
  induction pairs with
  | nil => intro c hfind _ _; simp at hfind
  | cons pr rest ih =>
    intro c hfind hpid hsame
    by_cases hp : pr.1 = i
    · have hpr : pr = (i, v) := by
        rw [List.find?_cons_of_pos _ (by simp [hp])] at hfind
        simpa using hfind
      rw [List.foldl_cons]
      apply foldl_row_stable
      · rw [hpr, cacheUpsert, if_pos ⟨rfl, rfl⟩]
      · intro qr hqr hkq
        have hq1 : qr.1 = i := hpid qr (List.mem_cons_of_mem pr hqr) hkq
        exact ⟨hsame qr (List.mem_cons_of_mem pr hqr) hq1, congrArg keyHash hq1⟩
    · rw [List.find?_cons_of_neg _ (by simp [hp])] at hfind
      rw [List.foldl_cons]
      exact ih _ hfind
        (fun qr hqr => hpid qr (List.mem_cons_of_mem pr hqr))
        (fun qr hqr => hsame qr (List.mem_cons_of_mem pr hqr))

lemma foldl_row_untouched {V : Type} (keyPid keyHash : Nat → String) (model : String)
    (k1 : String) :
    ∀ (pairs : List (Nat × V)) (c : EmbCache V),
      (∀ pr ∈ pairs, keyPid pr.1 ≠ k1) →
      (pairs.foldl (fun c pr =>
          cacheUpsert c (keyPid pr.1) model (keyHash pr.1) pr.2) c)
        k1 model = c k1 model := by
  intro pairs
  induction pairs with
  | nil => intro c _; rfl
  | cons pr rest ih =>
    intro c hne
    rw [List.foldl_cons]
    rw [ih _ (fun qr hqr => hne qr (List.mem_cons_of_mem pr hqr))]
    have hk : ¬ (k1 = keyPid pr.1 ∧ model = model) :=
      fun hco => hne pr (List.mem_cons_self pr rest) hco.1.symm
    rw [cacheUpsert, if_neg hk]

/-- Claim C6: during `build_index`, a product whose `(id, model,
content-hash)` triple is cached (the stored row of its `(id, model)` key
carries its hash) is never part of the embedding batch and keeps its cached
vector; the batch sent to the embedder consists exactly of the cache
misses; each fresh embedding is upserted under its `(id, model,
content-hash)` key — the upsert replaces the `(id, model)` row, so a stale
old-hash entry is destroyed, not just bypassed — and a rebuild from the
updated cache embeds nothing, so identical content is embedded at most
once.  The catalog is assumed to carry pairwise-distinct product ids, the
stable-id invariant of the data model (the upsert of one product would
otherwise overwrite the row of another product sharing its id). -/
theorem claim_C6 {V : Type} (hashFn : String → String) (embedFn : List String → List V)
    (model : String) (cache : EmbCache V) (products : List Product)
    (hlen : ∀ ts, (embedFn ts).length = ts.length)
    (hids : ∀ i j, i < products.length → j < products.length → i ≠ j →
      pidTextAt products i ≠ pidTextAt products j) :
    (∀ i v, i < products.length →
      cacheGet cache (pidTextAt products i) model (hashFn (docTextAt products i))
          = some v →
      i ∉ (build_index hashFn embedFn model cache products).missing_idxs
        ∧ (build_index hashFn embedFn model cache products).vecs.getD i none = some v)
    ∧ (∀ i, i ∈ (build_index hashFn embedFn model cache products).missing_idxs
        ↔ i < products.length
          ∧ cacheGet cache (pidTextAt products i) model
              (hashFn (docTextAt products i)) = none)
    ∧ (build_index hashFn embedFn model cache products).missing_texts
        = (build_index hashFn embedFn model cache products).missing_idxs.map
            (docTextAt products)
    ∧ (∀ i, i ∈ (build_index hashFn embedFn model cache products).missing_idxs →
        ∃ v, cacheGet (build_index hashFn embedFn model cache products).cache_after
            (pidTextAt products i) model (hashFn (docTextAt products i)) = some v
          ∧ (build_index hashFn embedFn model cache products).vecs.getD i none = some v)
    ∧ (build_index hashFn embedFn model
        (build_index hashFn embedFn model cache products).cache_after
        products).missing_idxs = [] := by
  have hchar : ∀ i,
      i ∈ (build_index hashFn embedFn model cache products).missing_idxs
        ↔ i < products.length
          ∧ cacheGet cache (pidTextAt products i) model
              (hashFn (docTextAt products i)) = none := by
    intro i
    show i ∈ (List.range products.length).filter
        (fun i => (cacheGet cache (pidTextAt products i) model
          (hashFn (docTextAt products i))).isNone) ↔ _
    rw [List.mem_filter, List.mem_range, Option.isNone_iff_eq_none]
  have hnd : (build_index hashFn embedFn model cache products).missing_idxs.Nodup := by
    show ((List.range products.length).filter _).Nodup
    exact (List.nodup_range products.length).filter _
  have hlen2 : (embedFn ((build_index hashFn embedFn model cache products).missing_idxs.map
      (docTextAt products))).length
      = (build_index hashFn embedFn model cache products).missing_idxs.length := by
    rw [hlen, List.length_map]
  -- the zipped batch of fresh embeddings
  have hfind : ∀ i ∈ (build_index hashFn embedFn model cache products).missing_idxs,
      ∃ v, (((build_index hashFn embedFn model cache products).missing_idxs).zip
          (embedFn ((build_index hashFn embedFn model cache products).missing_idxs.map
            (docTextAt products)))).find? (fun pr => pr.1 == i) = some (i, v) := by
    intro i hi
    exact zip_find_of_mem _ _ i hi hlen2
  have hvec_at : ∀ i, i < products.length →
      (build_index hashFn embedFn model cache products).vecs.getD i none
        = (match cacheGet cache (pidTextAt products i) model
              (hashFn (docTextAt products i)) with
          | some v => some v
          | none =>
            ((((build_index hashFn embedFn model cache products).missing_idxs).zip
              (embedFn ((build_index hashFn embedFn model cache
                products).missing_idxs.map (docTextAt products)))).find?
              (fun pr => pr.1 == i)).map Prod.snd) := by
    intro i hi
    exact getD_map_range products.length _ i hi
  have hfresh : ∀ i, i ∈ (build_index hashFn embedFn model cache products).missing_idxs →
      ∃ v, cacheGet (build_index hashFn embedFn model cache products).cache_after
          (pidTextAt products i) model (hashFn (docTextAt products i)) = some v
        ∧ (build_index hashFn embedFn model cache products).vecs.getD i none = some v := by
    intro i hi
    obtain ⟨v, hv⟩ := hfind i hi
    have hin : i < products.length := ((hchar i).mp hi).1
    refine ⟨v, ?_, ?_⟩
    · have hrow : ((((build_index hashFn embedFn model cache products).missing_idxs).zip
          (embedFn ((build_index hashFn embedFn model cache products).missing_idxs.map
            (docTextAt products)))).foldl
          (fun c pr => cacheUpsert c (pidTextAt products pr.1) model
            (hashFn (docTextAt products pr.1)) pr.2) cache)
          (pidTextAt products i) model
          = some (hashFn (docTextAt products i), v) := by
        apply foldl_row_value (pidTextAt products)
          (fun j => hashFn (docTextAt products j)) model i v _ cache hv
        · intro pr hpr hkp
          by_contra hne
          exact hids pr.1 i ((hchar pr.1).mp (List.of_mem_zip hpr).1).1 hin hne hkp
        · intro pr hpr hpe
          obtain ⟨p1, p2⟩ := pr
          subst hpe
          exact zip_nodup_unique _ _ hnd p1 p2 v hpr (List.mem_of_find?_eq_some hv)
      have hca : (build_index hashFn embedFn model cache products).cache_after
          (pidTextAt products i) model
          = some (hashFn (docTextAt products i), v) := hrow
      simp [cacheGet, hca]
    · rw [hvec_at i hin, ((hchar i).mp hi).2, hv]
      rfl
  refine ⟨?_, hchar, rfl, hfresh, ?_⟩
  · intro i v hi hc
    constructor
    · intro hmem
      rw [hchar i] at hmem
      rw [hc] at hmem
      exact Option.some_ne_none v hmem.2
    · rw [hvec_at i hi, hc]
  · have hsome : ∀ i, i < products.length →
        (cacheGet (build_index hashFn embedFn model cache products).cache_after
          (pidTextAt products i) model (hashFn (docTextAt products i))).isSome
            = true := by
      intro i hi
      cases hc : cacheGet cache (pidTextAt products i) model
          (hashFn (docTextAt products i)) with
      | some v =>
        have hnotmiss : i ∉ (build_index hashFn embedFn model cache
            products).missing_idxs := by
          intro hmem
          rw [hchar i, hc] at hmem
          exact Option.some_ne_none v hmem.2
        have hrow : ((((build_index hashFn embedFn model cache products).missing_idxs).zip
            (embedFn ((build_index hashFn embedFn model cache products).missing_idxs.map
              (docTextAt products)))).foldl
            (fun c pr => cacheUpsert c (pidTextAt products pr.1) model
              (hashFn (docTextAt products pr.1)) pr.2) cache)
            (pidTextAt products i) model
            = cache (pidTextAt products i) model := by
          apply foldl_row_untouched (pidTextAt products)
            (fun j => hashFn (docTextAt products j)) model (pidTextAt products i)
          intro pr hpr
          have hprn : pr.1 ∈ (build_index hashFn embedFn model cache
              products).missing_idxs := (List.of_mem_zip hpr).1
          have hne : pr.1 ≠ i := fun he => hnotmiss (he ▸ hprn)
          exact hids pr.1 i ((hchar pr.1).mp hprn).1 hi hne
        have hca : (build_index hashFn embedFn model cache products).cache_after
            (pidTextAt products i) model
            = cache (pidTextAt products i) model := hrow
        have heq : cacheGet (build_index hashFn embedFn model cache products).cache_after
            (pidTextAt products i) model (hashFn (docTextAt products i))
            = cacheGet cache (pidTextAt products i) model
                (hashFn (docTextAt products i)) := by
          simp only [cacheGet, hca]
        rw [heq, hc]
        rfl
      | none =>
        obtain ⟨v, hv, _⟩ := hfresh i ((hchar i).mpr ⟨hi, hc⟩)
        rw [hv]
        rfl
    show ((List.range products.length).filter _) = []
    apply List.filter_eq_nil_iff.mpr
    intro i hi
    rw [List.mem_range] at hi
    intro habs
    rw [Option.isNone_iff_eq_none] at habs
    have := hsome i hi
    rw [habs] at this
    simp at this

/-- Two-product catalog with distinct ids, for exercising the cache. -/
def c6_products : List Product :=
  [⟨"a", "", [], [], "", [], "", ""⟩, ⟨"b", "", [], [], "", [], "", ""⟩]

/-- A concrete embedder over `Nat` vectors (text lengths). -/
def c6_embed : List String → List Nat := fun ts => ts.map String.length

/-- The first build, from an empty cache (the content hash is the content
itself). -/
def c6_build1 : BuildResult Nat :=
  build_index (fun t => t) c6_embed "m" (fun _ _ => none) c6_products

/-- Claim C6, witness: after one build from an empty cache, product 0's
fresh embedding sits in the cache under its key and in the vector table,
and a second build from the updated cache has no cache miss at all. -/
theorem claim_C6_witness :
    (∃ v, cacheGet c6_build1.cache_after (pidTextAt c6_products 0) "m"
        (docTextAt c6_products 0) = some v
      ∧ c6_build1.vecs.getD 0 none = some v)
    ∧ (build_index (fun t => t) c6_embed "m" c6_build1.cache_after
        c6_products).missing_idxs = [] := by
  have h := claim_C6 (fun t => t) c6_embed "m" (fun _ _ => none) c6_products
    (fun ts => List.length_map _ _)
    (by
      intro i j hi hj hne
      rw [show c6_products.length = 2 from rfl] at hi hj
      interval_cases i <;> interval_cases j <;>
        first
        | exact absurd rfl hne
        | decide)
  exact ⟨h.2.2.2.1 0 (by decide), h.2.2.2.2⟩

/-! ## Knowledge-base retriever: `backend/app/kb_rag_bak1.py`

`KnowledgeBaseRAG.retrieve` (lines 295-348): locale filter, per-`kb_id`
dedup keeping the best score, descending sort, top `k`.  The query
embedding and the vector-index search are one external collaborator
(`searchFn`, from `top_k` to scored index pairs); scores are only ever
compared, so the float scores are embedded as `Int`; `sha256_text` is the
`hashFn` parameter.  The module `kb_rag.py` carries an older
`retrieve(query, k)` without locale filtering or dedup; the claim describes
this, the locale-aware retriever. -/

/-- `_normalize_locale` (kb_rag_bak1.py lines 20-27). -/
def normalize_locale (locale : String) : String :=
  let loc := pyLower (pyStripStr (if locale = "" then "en" else locale))
  if pyStartsWith loc "zh" then "zh" else "en"

/-- The metadata fields of a chunk consulted by `retrieve`. -/
structure KBMeta where
  kb_id : Option String
  lang : Option String
  locale : Option String
deriving Repr, DecidableEq, Inhabited

/-- One knowledge-base chunk (`self.chunks[i]`). -/
structure KBChunk where
  text : String
  metadata : KBMeta
  source : String
deriving Repr, DecidableEq, Inhabited

/-- the chunk language: `_normalize_locale(str(md.get("lang") or
md.get("locale") or "en"))` (kb_rag_bak1.py line 330). -/
def effLang (md : KBMeta) : String :=
  normalize_locale (falsyOr md.lang (falsyOr md.locale "en"))

/-- the stable chunk id: `str(md.get("kb_id") or "")`, falling back to the
content hash of the text (kb_rag_bak1.py lines 333-335). -/
def effKbId (hashFn : String → String) (c : KBChunk) : String :=
  let kb_id := falsyOr c.metadata.kb_id ""
  if kb_id = "" then hashFn c.text else kb_id

/-- One returned hit: the chunk copy with its score attached. -/
structure KBHit where
  chunk : KBChunk
  score : Int
deriving Repr, DecidableEq, Inhabited

/-- The body of the `for score, idx in zip(scores, indices)` loop
(kb_rag_bak1.py lines 322-341) acting on the insertion-ordered
`best_by_id` dict: out-of-range indices and foreign-language chunks are
skipped, a new id is appended, and a strictly better score replaces the
stored entry in place. -/
def kb_dedup_step (hashFn : String → String) (chunks : List KBChunk)
    (want_lang : String) (acc : List (String × KBHit)) (pr : Int × Int) :
    List (String × KBHit) :=
  let s := pr.1
  let idx := pr.2
  if idx < 0 ∨ (chunks.length : Int) ≤ idx then acc
  else
    let item := chunks.getD idx.toNat default
    if effLang item.metadata ≠ want_lang then acc
    else
      let kb_id := effKbId hashFn item
      match alistGet acc kb_id with
      | some prev => if prev.score < s then alistSet acc kb_id ⟨item, s⟩ else acc
      | none => acc ++ [(kb_id, ⟨item, s⟩)]

/-- Stable insertion for descending sort (`sorted(..., reverse=True)` is
stable in Python). -/
def insertDesc (x : KBHit) : List KBHit → List KBHit
  | [] => [x]
  | y :: ys => if x.score < y.score then y :: insertDesc x ys else x :: y :: ys

/-- Stable descending sort by score. -/
def sortDesc : List KBHit → List KBHit
  | [] => []
  | x :: xs => insertDesc x (sortDesc xs)

/-- `KnowledgeBaseRAG.retrieve` (kb_rag_bak1.py lines 295-348): empty or
blank queries and empty indexes return `[]`; otherwise the vector index is
consulted once for `min(max(k*6, 12), len(chunks))` oversampled candidates,
which are locale-filtered, deduplicated by stable id keeping the best
score, sorted by descending score and cut to the top `k`. -/
def kb_retrieve (hashFn : String → String) (searchFn : Nat → List (Int × Int))
    (chunks : List KBChunk) (query locale : String) (k : Nat) : List KBHit :=
  if query = "" ∨ pyStripStr query = "" then []
  else if chunks.isEmpty then []
  else
    let want_lang := normalize_locale locale
    let oversample := min (max (k * 6) 12) chunks.length
    let hits := searchFn oversample
    let best_by_id := hits.foldl (kb_dedup_step hashFn chunks want_lang) []
    (sortDesc (best_by_id.map Prod.snd)).take k

/-! ### Dict lemmas for the dedup fold -/

lemma mem_alistSet {α : Type} (m : List (String × α)) (k : String) (v : α)
    (kv : String × α) (h : kv ∈ alistSet m k v) : kv = (k, v) ∨ kv ∈ m := by
  induction m with
  | nil => simpa [alistSet] using h
  | cons kv1 rest ih =>
    obtain ⟨k1, v1⟩ := kv1
    rw [alistSet_cons] at h
    by_cases h1 : k1 = k
    · rw [if_pos h1] at h
      rcases List.mem_cons.mp h with h2 | h2
      · exact Or.inl h2
      · exact Or.inr (List.mem_cons_of_mem _ h2)
    · rw [if_neg h1] at h
      rcases List.mem_cons.mp h with h2 | h2
      · exact Or.inr (h2 ▸ List.mem_cons_self _ _)
      · rcases ih h2 with h3 | h3
        · exact Or.inl h3
        · exact Or.inr (List.mem_cons_of_mem _ h3)

lemma self_mem_alistSet {α : Type} (m : List (String × α)) (k : String) (v : α) :
    (k, v) ∈ alistSet m k v := by
  induction m with
  | nil => simp [alistSet]
  | cons kv1 rest ih =>
    obtain ⟨k1, v1⟩ := kv1
    rw [alistSet_cons]
    by_cases h1 : k1 = k
    · rw [if_pos h1]; exact List.mem_cons_self _ _
    · rw [if_neg h1]; exact List.mem_cons_of_mem _ ih

lemma mem_alistSet_of_ne {α : Type} (m : List (String × α)) (k k2 : String)
    (v : α) (h2 : α) (hne : k2 ≠ k) (h : (k2, h2) ∈ m) : (k2, h2) ∈ alistSet m k v := by
  induction m with
  | nil => simp at h
  | cons kv1 rest ih =>
    obtain ⟨k1, v1⟩ := kv1
    rw [alistSet_cons]
    by_cases h1 : k1 = k
    · rw [if_pos h1]
      rcases List.mem_cons.mp h with h3 | h3
      · exact absurd (show k2 = k from h1 ▸ congrArg Prod.fst h3) hne
      · exact List.mem_cons_of_mem _ h3
    · rw [if_neg h1]
      rcases List.mem_cons.mp h with h3 | h3
      · exact h3 ▸ List.mem_cons_self _ _
      · exact List.mem_cons_of_mem _ (ih h3)

lemma keys_alistSet_of_get_some {α : Type} (m : List (String × α)) (k : String)
    (v w : α) (h : alistGet m k = some w) :
    (alistSet m k v).map Prod.fst = m.map Prod.fst := by
  induction m with
  | nil => simp [alistGet] at h
  | cons kv1 rest ih =>
    obtain ⟨k1, v1⟩ := kv1
    rw [alistSet_cons]
    by_cases h1 : k1 = k
    · rw [if_pos h1]
      simp [h1]
    · rw [if_neg h1]
      rw [alistGet_cons, if_neg h1] at h
      simp [ih h]

lemma alistGet_mem {α : Type} (m : List (String × α)) (k : String) (v : α)
    (h : alistGet m k = some v) : (k, v) ∈ m := by
  induction m with
  | nil => simp [alistGet] at h
  | cons kv1 rest ih =>
    obtain ⟨k1, v1⟩ := kv1
    rw [alistGet_cons] at h
    by_cases h1 : k1 = k
    · rw [if_pos h1] at h
      obtain rfl : v1 = v := by simpa using h
      exact h1 ▸ List.mem_cons_self _ _
    · rw [if_neg h1] at h
      exact List.mem_cons_of_mem _ (ih h)

lemma not_mem_keys_of_get_none {α : Type} (m : List (String × α)) (k : String)
    (h : alistGet m k = none) : k ∉ m.map Prod.fst := by
  induction m with
  | nil => simp
  | cons kv1 rest ih =>
    obtain ⟨k1, v1⟩ := kv1
    rw [alistGet_cons] at h
    by_cases h1 : k1 = k
    · rw [if_pos h1] at h; exact absurd h (by simp)
    · rw [if_neg h1] at h
      simp only [List.map_cons, List.mem_cons, not_or]
      exact ⟨fun he => h1 he.symm, ih h⟩

lemma alistGet_of_mem_nodup {α : Type} (m : List (String × α)) (k : String) (v : α)
    (hnd : (m.map Prod.fst).Nodup) (h : (k, v) ∈ m) : alistGet m k = some v := by
  induction m with
  | nil => simp at h
  | cons kv1 rest ih =>
    obtain ⟨k1, v1⟩ := kv1
    simp only [List.map_cons, List.nodup_cons] at hnd
    rw [alistGet_cons]
    rcases List.mem_cons.mp h with h2 | h2
    · obtain ⟨rfl, rfl⟩ : k1 = k ∧ v1 = v := by
        exact ⟨(congrArg Prod.fst h2).symm, (congrArg Prod.snd h2).symm⟩
      rw [if_pos rfl]
    · by_cases h1 : k1 = k
      · exfalso
        apply hnd.1
        rw [h1]
        exact List.mem_map_of_mem Prod.fst h2
      · rw [if_neg h1]
        exact ih hnd.2 h2

/-- Invariants of the dedup fold of `retrieve`: every stored pair is keyed
by its chunk id and locale-matching; keys stay distinct; stored scores only
grow; and every valid, locale-matching hit is dominated by some stored
entry with its id. -/
lemma kb_fold_master (hashFn : String → String) (chunks : List KBChunk) (want : String) :
    ∀ (hits : List (Int × Int)) (acc : List (String × KBHit)),
      (∀ kv ∈ acc, kv.1 = effKbId hashFn kv.2.chunk
        ∧ effLang kv.2.chunk.metadata = want) →
      ((acc.map Prod.fst).Nodup) →
      (∀ kv ∈ hits.foldl (kb_dedup_step hashFn chunks want) acc,
          kv.1 = effKbId hashFn kv.2.chunk ∧ effLang kv.2.chunk.metadata = want)
      ∧ (((hits.foldl (kb_dedup_step hashFn chunks want) acc).map Prod.fst).Nodup)
      ∧ (∀ k h, (k, h) ∈ acc →
          ∃ h2, (k, h2) ∈ hits.foldl (kb_dedup_step hashFn chunks want) acc
            ∧ h.score ≤ h2.score)
      ∧ (∀ pr ∈ hits, 0 ≤ pr.2 → pr.2 < (chunks.length : Int) →
          effLang (chunks.getD pr.2.toNat default).metadata = want →
          ∃ h2, (effKbId hashFn (chunks.getD pr.2.toNat default), h2)
              ∈ hits.foldl (kb_dedup_step hashFn chunks want) acc
            ∧ pr.1 ≤ h2.score) := by
  intro hits
  induction hits with
  | nil =>
    intro acc hgood hnd
    exact ⟨hgood, hnd, fun k h hm => ⟨h, hm, le_refl _⟩,
      fun pr hpr => absurd hpr (List.not_mem_nil pr)⟩
  | cons pr rest ih =>
    intro acc hgood hnd
    have hstep :
        (∀ kv ∈ kb_dedup_step hashFn chunks want acc pr,
          kv.1 = effKbId hashFn kv.2.chunk ∧ effLang kv.2.chunk.metadata = want)
        ∧ (((kb_dedup_step hashFn chunks want acc pr).map Prod.fst).Nodup)
        ∧ (∀ k h, (k, h) ∈ acc →
            ∃ h2, (k, h2) ∈ kb_dedup_step hashFn chunks want acc pr
              ∧ h.score ≤ h2.score)
        ∧ (0 ≤ pr.2 → pr.2 < (chunks.length : Int) →
            effLang (chunks.getD pr.2.toNat default).metadata = want →
            ∃ h2, (effKbId hashFn (chunks.getD pr.2.toNat default), h2)
                ∈ kb_dedup_step hashFn chunks want acc pr
              ∧ pr.1 ≤ h2.score) := by
      simp only [kb_dedup_step]
      by_cases hc1 : pr.2 < 0 ∨ (chunks.length : Int) ≤ pr.2
      · rw [if_pos hc1]
        refine ⟨hgood, hnd, fun k h hm => ⟨h, hm, le_refl _⟩, ?_⟩
        intro h0 hltn _
        rcases hc1 with hc | hc
        · exact absurd hc (not_lt.mpr h0)
        · exact absurd hltn (not_lt.mpr hc)
      · rw [if_neg hc1]
        by_cases hc2 : effLang (chunks.getD pr.2.toNat default).metadata ≠ want
        · rw [if_pos hc2]
          refine ⟨hgood, hnd, fun k h hm => ⟨h, hm, le_refl _⟩, ?_⟩
          intro _ _ hlang
          exact absurd hlang hc2
        · rw [if_neg hc2]
          rw [not_ne_iff] at hc2
          cases hget : alistGet acc (effKbId hashFn (chunks.getD pr.2.toNat default)) with
          | some prev =>
            simp only [hget]
            by_cases hlt : prev.score < pr.1
            · rw [if_pos hlt]
              refine ⟨?_, ?_, ?_, ?_⟩
              · intro kv hkv
                rcases mem_alistSet _ _ _ kv hkv with h2 | h2
                · rw [h2]
                  exact ⟨rfl, hc2⟩
                · exact hgood kv h2
              · rw [keys_alistSet_of_get_some _ _ _ _ hget]
                exact hnd
              · intro k h hm
                by_cases hk : k = effKbId hashFn (chunks.getD pr.2.toNat default)
                · have hkh : alistGet acc k = some h := alistGet_of_mem_nodup _ _ _ hnd hm
                  rw [hk, hget] at hkh
                  obtain rfl : prev = h := by simpa using hkh
                  refine ⟨⟨chunks.getD pr.2.toNat default, pr.1⟩, ?_, le_of_lt hlt⟩
                  rw [hk]
                  exact self_mem_alistSet _ _ _
                · exact ⟨h, mem_alistSet_of_ne _ _ _ _ _ hk hm, le_refl _⟩
              · intro _ _ _
                exact ⟨⟨chunks.getD pr.2.toNat default, pr.1⟩,
                  self_mem_alistSet _ _ _, le_refl _⟩
            · rw [if_neg hlt]
              refine ⟨hgood, hnd, fun k h hm => ⟨h, hm, le_refl _⟩, ?_⟩
              intro _ _ _
              exact ⟨prev, alistGet_mem _ _ _ hget, not_lt.mp hlt⟩
          | none =>
            simp only [hget]
            refine ⟨?_, ?_, ?_, ?_⟩
            · intro kv hkv
              rcases List.mem_append.mp hkv with h2 | h2
              · exact hgood kv h2
              · obtain rfl : kv = (effKbId hashFn (chunks.getD pr.2.toNat default),
                    ⟨chunks.getD pr.2.toNat default, pr.1⟩) := by simpa using h2
                exact ⟨rfl, hc2⟩
            · rw [List.map_append]
              refine List.Nodup.append hnd (by simp) ?_
              intro x hx hx2
              obtain rfl : x = effKbId hashFn (chunks.getD pr.2.toNat default) := by
                simpa using hx2
              exact not_mem_keys_of_get_none _ _ hget hx
            · intro k h hm
              exact ⟨h, List.mem_append_left _ hm, le_refl _⟩
            · intro _ _ _
              exact ⟨⟨chunks.getD pr.2.toNat default, pr.1⟩,
                List.mem_append_right _ (by simp), le_refl _⟩
    obtain ⟨hgood1, hnd1, hpers1, hnew1⟩ := hstep
    have hfold : (pr :: rest).foldl (kb_dedup_step hashFn chunks want) acc
        = rest.foldl (kb_dedup_step hashFn chunks want)
            (kb_dedup_step hashFn chunks want acc pr) := List.foldl_cons _ _
    obtain ⟨rgood, rnd, rpers, rnew⟩ :=
      ih (kb_dedup_step hashFn chunks want acc pr) hgood1 hnd1
    rw [hfold]
    refine ⟨rgood, rnd, ?_, ?_⟩
    · intro k h hm
      obtain ⟨h2, hm2, hle2⟩ := hpers1 k h hm
      obtain ⟨h3, hm3, hle3⟩ := rpers k h2 hm2
      exact ⟨h3, hm3, le_trans hle2 hle3⟩
    · intro qr hqr h0 hltn hlang
      rcases List.mem_cons.mp hqr with rfl | hqr2
      · obtain ⟨h2, hm2, hle2⟩ := hnew1 h0 hltn hlang
        obtain ⟨h3, hm3, hle3⟩ := rpers _ h2 hm2
        exact ⟨h3, hm3, le_trans hle2 hle3⟩
      · exact rnew qr hqr2 h0 hltn hlang

lemma perm_insertDesc (x : KBHit) (l : List KBHit) :
    List.Perm (insertDesc x l) (x :: l) := by
  induction l with
  | nil => rfl
  | cons y ys ih =>
    rw [insertDesc]
    by_cases h : x.score < y.score
    · rw [if_pos h]
      exact ((ih.cons y).trans (List.Perm.swap x y ys)).symm.symm
    · rw [if_neg h]

lemma perm_sortDesc (l : List KBHit) : List.Perm (sortDesc l) l := by
  induction l with
  | nil => rfl
  | cons x xs ih =>
    rw [sortDesc]
    exact (perm_insertDesc x (sortDesc xs)).trans (ih.cons x)

lemma sorted_insertDesc (x : KBHit) (l : List KBHit)
    (h : l.Pairwise (fun a b => b.score ≤ a.score)) :
    (insertDesc x l).Pairwise (fun a b => b.score ≤ a.score) := by
  induction l with
  | nil => simp [insertDesc]
  | cons y ys ih =>
    rw [insertDesc]
    rw [List.pairwise_cons] at h
    by_cases hs : x.score < y.score
    · rw [if_pos hs]
      rw [List.pairwise_cons]
      constructor
      · intro a ha
        rcases List.mem_cons.mp ((perm_insertDesc x ys).mem_iff.mp ha) with rfl | ha2
        · exact le_of_lt hs
        · exact h.1 a ha2
      · exact ih h.2
    · rw [if_neg hs]
      rw [List.pairwise_cons]
      refine ⟨?_, List.pairwise_cons.mpr h⟩
      intro a ha
      rcases List.mem_cons.mp ha with rfl | ha2
      · exact not_lt.mp hs
      · exact le_trans (h.1 a ha2) (not_lt.mp hs)

lemma sorted_sortDesc (l : List KBHit) :
    (sortDesc l).Pairwise (fun a b => b.score ≤ a.score) := by
  induction l with
  | nil => simp [sortDesc]
  | cons x xs ih => exact sorted_insertDesc x (sortDesc xs) ih

lemma mem_unique_of_nodup_keys {α : Type} (m : List (String × α))
    (hnd : (m.map Prod.fst).Nodup) (k : String) (a b : α)
    (ha : (k, a) ∈ m) (hb : (k, b) ∈ m) : a = b := by
  have h1 := alistGet_of_mem_nodup m k a hnd ha
  have h2 := alistGet_of_mem_nodup m k b hnd hb
  rw [h1] at h2
  simpa using h2

/-- Properties of the tail of `retrieve`: sorting the dedup values and
taking `k` keeps at most `k` locale-matching hits with pairwise-distinct
ids, sorted by descending score, all drawn from the dedup table. -/
lemma kb_take_sort_props (hashFn : String → String) (want : String)
    (best : List (String × KBHit)) (k : Nat)
    (hgood : ∀ kv ∈ best, kv.1 = effKbId hashFn kv.2.chunk
      ∧ effLang kv.2.chunk.metadata = want)
    (hnd : (best.map Prod.fst).Nodup) :
    ((sortDesc (best.map Prod.snd)).take k).length ≤ k
    ∧ (∀ h ∈ (sortDesc (best.map Prod.snd)).take k,
        effLang h.chunk.metadata = want)
    ∧ (((sortDesc (best.map Prod.snd)).take k).map
        (fun h => effKbId hashFn h.chunk)).Nodup
    ∧ ((sortDesc (best.map Prod.snd)).take k).Pairwise
        (fun a b => b.score ≤ a.score)
    ∧ (∀ h ∈ (sortDesc (best.map Prod.snd)).take k,
        (effKbId hashFn h.chunk, h) ∈ best) := by
  have hmem : ∀ h ∈ (sortDesc (best.map Prod.snd)).take k,
      (effKbId hashFn h.chunk, h) ∈ best ∧ effLang h.chunk.metadata = want := by
    intro h hh
    have h1 : h ∈ sortDesc (best.map Prod.snd) := (List.take_sublist _ _).subset hh
    have h2 : h ∈ best.map Prod.snd := (perm_sortDesc _).mem_iff.mp h1
    obtain ⟨kv, hkv, rfl⟩ := List.mem_map.mp h2
    have hg := hgood kv hkv
    have heta : (kv.1, kv.2) ∈ best := by simpa using hkv
    rw [hg.1] at heta
    exact ⟨heta, hg.2⟩
  refine ⟨List.length_take_le _ _, fun h hh => (hmem h hh).2, ?_, ?_,
    fun h hh => (hmem h hh).1⟩
  · have hkeys : best.map Prod.fst
        = (best.map Prod.snd).map (fun h => effKbId hashFn h.chunk) := by
      rw [List.map_map]
      exact List.map_congr_left (fun kv hkv => (hgood kv hkv).1)
    have h1 : ((best.map Prod.snd).map (fun h => effKbId hashFn h.chunk)).Nodup :=
      hkeys ▸ hnd
    have h2 : ((sortDesc (best.map Prod.snd)).map
        (fun h => effKbId hashFn h.chunk)).Nodup :=
      (((perm_sortDesc (best.map Prod.snd)).map _).nodup_iff).mpr h1
    rw [List.map_take]
    exact h2.sublist (List.take_sublist _ _)
  · exact (sorted_sortDesc _).sublist (List.take_sublist _ _)

/-- Claim C7: `KnowledgeBaseRAG.retrieve` returns `[]` (not an error) on a
blank query or an empty index; otherwise it consults the vector index once
for `min(max(k*6, 12), N)` oversampled candidates and returns at most `k`
results, all in the normalized requested locale, with pairwise-distinct
stable chunk ids, sorted by descending score, each result carrying the best
score among the surviving candidates of its id. -/
theorem claim_C7 (hashFn : String → String) (searchFn : Nat → List (Int × Int))
    (chunks : List KBChunk) (query locale : String) (k : Nat) :
    (pyStripStr query = "" → kb_retrieve hashFn searchFn chunks query locale k = [])
    ∧ (chunks = [] → kb_retrieve hashFn searchFn chunks query locale k = [])
    ∧ (kb_retrieve hashFn searchFn chunks query locale k).length ≤ k
    ∧ (∀ h ∈ kb_retrieve hashFn searchFn chunks query locale k,
        effLang h.chunk.metadata = normalize_locale locale)
    ∧ ((kb_retrieve hashFn searchFn chunks query locale k).map
        (fun h => effKbId hashFn h.chunk)).Nodup
    ∧ (kb_retrieve hashFn searchFn chunks query locale k).Pairwise
        (fun a b => b.score ≤ a.score)
    ∧ (∀ h ∈ kb_retrieve hashFn searchFn chunks query locale k,
        ∀ pr ∈ searchFn (min (max (k * 6) 12) chunks.length),
        0 ≤ pr.2 → pr.2 < (chunks.length : Int) →
        effLang (chunks.getD pr.2.toNat default).metadata = normalize_locale locale →
        effKbId hashFn (chunks.getD pr.2.toNat default) = effKbId hashFn h.chunk →
        pr.1 ≤ h.score)
    ∧ (∀ searchFn2 : Nat → List (Int × Int),
        searchFn2 (min (max (k * 6) 12) chunks.length)
          = searchFn (min (max (k * 6) 12) chunks.length) →
        kb_retrieve hashFn searchFn2 chunks query locale k
          = kb_retrieve hashFn searchFn chunks query locale k) := by
  by_cases hq : query = "" ∨ pyStripStr query = ""
  · have hr : kb_retrieve hashFn searchFn chunks query locale k = [] := by
      simp only [kb_retrieve, if_pos hq]
    refine ⟨fun _ => hr, fun _ => hr, ?_, ?_, ?_, ?_, ?_, ?_⟩
    · rw [hr]; simp
    · rw [hr]; simp
    · rw [hr]; simp
    · rw [hr]; simp
    · rw [hr]; simp
    · intro s2 _
      simp only [kb_retrieve, if_pos hq]
  · by_cases hc : chunks.isEmpty = true
    · have hr : kb_retrieve hashFn searchFn chunks query locale k = [] := by
        simp only [kb_retrieve, if_neg hq, if_pos hc]
      refine ⟨fun _ => hr, fun _ => hr, ?_, ?_, ?_, ?_, ?_, ?_⟩
      · rw [hr]; simp
      · rw [hr]; simp
      · rw [hr]; simp
      · rw [hr]; simp
      · rw [hr]; simp
      · intro s2 _
        simp only [kb_retrieve, if_neg hq, if_pos hc]
    · have hr : kb_retrieve hashFn searchFn chunks query locale k
          = (sortDesc (((searchFn (min (max (k * 6) 12) chunks.length)).foldl
              (kb_dedup_step hashFn chunks (normalize_locale locale)) []).map
                Prod.snd)).take k := by
        simp only [kb_retrieve, if_neg hq, if_neg hc]
      obtain ⟨bgood, bnd, bpers, bnew⟩ :=
        kb_fold_master hashFn chunks (normalize_locale locale)
          (searchFn (min (max (k * 6) 12) chunks.length)) []
          (by simp) (by simp)
      obtain ⟨hlen, hlang, hkeys, hsorted, hfrom⟩ :=
        kb_take_sort_props hashFn (normalize_locale locale)
          ((searchFn (min (max (k * 6) 12) chunks.length)).foldl
            (kb_dedup_step hashFn chunks (normalize_locale locale)) []) k bgood bnd
      refine ⟨?_, ?_, ?_, ?_, ?_, ?_, ?_, ?_⟩
      · intro hblank
        exact absurd (Or.inr hblank) hq
      · intro hnil
        rw [hnil] at hc
        exact absurd rfl hc
      · rw [hr]; exact hlen
      · rw [hr]; exact hlang
      · rw [hr]; exact hkeys
      · rw [hr]; exact hsorted
      · rw [hr]
        intro h hh pr hpr h0 hlt hlang2 hkey
        obtain ⟨h2, hm2, hle2⟩ := bnew pr hpr h0 hlt hlang2
        rw [hkey] at hm2
        have := mem_unique_of_nodup_keys _ bnd _ h2 h hm2 (hfrom h hh)
        exact this ▸ hle2
      · intro s2 he
        simp only [kb_retrieve, if_neg hq, if_neg hc, he]

/-- Claim C7, witness: a blank query and an empty index both return `[]`
rather than raising, and a populated retrieval respects the `k` bound. -/
theorem claim_C7_witness :
    kb_retrieve (fun t => t) (fun _ => [(5, 0), (3, 1)])
        [⟨"t1", ⟨some "id1", some "en", none⟩, "f"⟩,
          ⟨"t2", ⟨some "id2", some "en", none⟩, "f"⟩] " " "en" 3 = []
    ∧ kb_retrieve (fun t => t) (fun _ => [(5, 0), (3, 1)]) [] "hello" "en" 3 = []
    ∧ (kb_retrieve (fun t => t) (fun _ => [(5, 0), (3, 1)])
        [⟨"t1", ⟨some "id1", some "en", none⟩, "f"⟩,
          ⟨"t2", ⟨some "id2", some "en", none⟩, "f"⟩] "hello" "en" 1).length ≤ 1 := by
  refine ⟨?_, ?_, ?_⟩
  · exact (claim_C7 (fun t => t) (fun _ => [(5, 0), (3, 1)])
      [⟨"t1", ⟨some "id1", some "en", none⟩, "f"⟩,
        ⟨"t2", ⟨some "id2", some "en", none⟩, "f"⟩] " " "en" 3).1 (by decide)
  · exact (claim_C7 (fun t => t) (fun _ => [(5, 0), (3, 1)]) []
      "hello" "en" 3).2.1 rfl
  · exact (claim_C7 (fun t => t) (fun _ => [(5, 0), (3, 1)])
      [⟨"t1", ⟨some "id1", some "en", none⟩, "f"⟩,
        ⟨"t2", ⟨some "id2", some "en", none⟩, "f"⟩] "hello" "en" 1).2.2.1

end AIweb
